import Mathlib

/-!
Verification of the pulse-backend split-order execution core.

Shallow embedding of the relevant source modules:
* `pulse/splitting.py`                       (the Planner)
* `pulse/workers/execution_worker.py`        (the Execution Worker)
* `pulse/workers/timeout_monitor.py`         (the Timeout Monitor)
* `pulse/workers/cancellation_handler.py`    (the Cancellation Handler)
* `pulse/repositories/order_repository.py` together with the schema of
  `alembic/versions/1768674600_create_orders_table.py` (order creation)

Timestamps are modelled as rational numbers of minutes, monetary values as
rationals, machine integers as `Int` (Python integers are unbounded), and
randomness draws as explicit function arguments.  Fallible Python code is
modelled with `Except`/`Option`; the store is modelled as explicit lists of
rows threaded through each operation.
-/

namespace Pulse

/-! ### Planner (`pulse/splitting.py`, `calculate_split_schedule`)

`SplitSlice` mirrors the frozen dataclass of `splitting.py`.  Times are in
minutes relative to the same clock as `parent_created_at`. -/

structure SplitSlice where
  quantity : ℤ
  sequence_number : ℕ
  scheduled_at : ℚ
deriving Repr, DecidableEq

instance {ε α : Type} [DecidableEq ε] [DecidableEq α] : DecidableEq (Except ε α) :=
  fun a b =>
    match a, b with
    | .error x, .error y =>
      if h : x = y then isTrue (by rw [h]) else isFalse (by intro hh; cases hh; exact h rfl)
    | .ok x, .ok y =>
      if h : x = y then isTrue (by rw [h]) else isFalse (by intro hh; cases hh; exact h rfl)
    | .error _, .ok _ => isFalse (by intro hh; cases hh)
    | .ok _, .error _ => isFalse (by intro hh; cases hh)

/-- Quantity list of `calculate_split_schedule` (source lines 71-89).
Python `int(x)` truncates toward zero and the source clamps negative results
to 0 (`if qty < 0: qty = 0`); `max ⌊x⌋ 0` is extensionally the same function
(both agree with `max (trunc x) 0` for every rational `x`).
`qVar i` is the draw `random.uniform(-0.2, 0.2)` of iteration `i`. -/
def splitQuantities (Q N : ℤ) (randomize : Bool) (qVar : ℕ → ℚ) : List ℤ :=
  let base : ℚ := (Q : ℚ) / (N : ℚ)
  let firsts : List ℤ :=
    if randomize ∧ 1 < N then
      (List.range (N - 1).toNat).map (fun i => max ⌊base * (1 + qVar i)⌋ 0)
    else
      (List.range (N - 1).toNat).map (fun _ => ⌊base⌋)
  firsts ++ [Q - firsts.sum]

/-- Scheduled-time list of `calculate_split_schedule` (source lines 91-117).
`tVar i` is the draw `random.uniform(-max_variance, max_variance)` of
iteration `i`.  The source raises the value to `parent_created_at` and then
caps it at `time_window_end`, i.e. `min (max t t0) tEnd`. -/
def splitTimeAt (t0 : ℚ) (N D : ℤ) (randomize : Bool) (tVar : ℕ → ℚ) (i : ℕ) : ℚ :=
  let interval : ℚ := if 1 < N then (D : ℚ) / ((N : ℚ) - 1) else 0
  let base : ℚ := t0 + (i : ℚ) * interval
  let t : ℚ := if randomize ∧ 1 < N ∧ 0 < i ∧ i < N.toNat - 1 then base + tVar i else base
  min (max t t0) (t0 + (D : ℚ))

def splitTimes (t0 : ℚ) (N D : ℤ) (randomize : Bool) (tVar : ℕ → ℚ) : List ℚ :=
  (List.range N.toNat).map (splitTimeAt t0 N D randomize tVar)

/-- Source lines 123-130: pair quantity `i` with scheduled time `i` and
sequence number `i + 1`. -/
def plannedSlices (qs : List ℤ) (ts : List ℚ) : List SplitSlice :=
  ((qs.zip ts).enum).map (fun p => ⟨p.2.1, p.1 + 1, p.2.2⟩)

/-- `calculate_split_schedule` (source lines 31-138).  The three input guards
raise `ValueError`, the length safeguard raises `RuntimeError`, and the two
final `assert` statements raise `AssertionError`; all are modelled as
`Except.error` with the source message. -/
def calculate_split_schedule (t0 : ℚ) (Q N D : ℤ) (randomize : Bool)
    (qVar tVar : ℕ → ℚ) : Except String (List SplitSlice) :=
  if N ≤ 0 then .error "num_splits must be >= 1"
  else if Q ≤ 0 then .error "total_quantity must be > 0"
  else if D < 0 then .error "duration_minutes must be >= 0"
  else if (splitQuantities Q N randomize qVar).length ≠ N.toNat ∨
          (splitTimes t0 N D randomize tVar).length ≠ N.toNat then
    .error "Mismatch between number of splits and results"
  else if ((plannedSlices (splitQuantities Q N randomize qVar)
              (splitTimes t0 N D randomize tVar)).map SplitSlice.quantity).sum ≠ Q then
    .error "AssertionError"
  else if ¬ (∀ s ∈ plannedSlices (splitQuantities Q N randomize qVar)
                (splitTimes t0 N D randomize tVar),
              t0 ≤ s.scheduled_at ∧ s.scheduled_at ≤ t0 + (D : ℚ)) then
    .error "AssertionError"
  else .ok (plannedSlices (splitQuantities Q N randomize qVar)
              (splitTimes t0 N D randomize tVar))

lemma splitQuantities_length (Q N : ℤ) (randomize : Bool) (qVar : ℕ → ℚ) :
    (splitQuantities Q N randomize qVar).length = (N - 1).toNat + 1 := by
  unfold splitQuantities
  by_cases h : randomize ∧ 1 < N <;> simp [h]

lemma splitTimes_length (t0 : ℚ) (N D : ℤ) (randomize : Bool) (tVar : ℕ → ℚ) :
    (splitTimes t0 N D randomize tVar).length = N.toNat := by
  unfold splitTimes
  simp

lemma splitQuantities_sum (Q N : ℤ) (randomize : Bool) (qVar : ℕ → ℚ) :
    (splitQuantities Q N randomize qVar).sum = Q := by
  unfold splitQuantities
  by_cases h : randomize ∧ 1 < N <;> simp [h]

lemma splitTimes_mem_window (t0 : ℚ) (N D : ℤ) (randomize : Bool) (tVar : ℕ → ℚ)
    (hD : 0 ≤ D) : ∀ x ∈ splitTimes t0 N D randomize tVar,
      t0 ≤ x ∧ x ≤ t0 + (D : ℚ) := by
  intro x hx
  unfold splitTimes at hx
  simp only [List.mem_map, List.mem_range] at hx
  obtain ⟨i, -, rfl⟩ := hx
  unfold splitTimeAt
  constructor
  · apply le_min
    · exact le_max_right _ _
    · have : (0 : ℚ) ≤ (D : ℚ) := by exact_mod_cast hD
      linarith
  · exact min_le_right _ _

lemma plannedSlices_map_quantity (qs : List ℤ) (ts : List ℚ)
    (h : qs.length ≤ ts.length) :
    (plannedSlices qs ts).map SplitSlice.quantity = qs := by
  unfold plannedSlices
  rw [List.map_map]
  have h1 : (SplitSlice.quantity ∘ fun p : ℕ × ℤ × ℚ => SplitSlice.mk p.2.1 (p.1 + 1) p.2.2)
      = Prod.fst ∘ Prod.snd := rfl
  rw [h1, ← List.map_map, List.enum_map_snd, List.map_fst_zip _ _ h]

lemma plannedSlices_map_seq (qs : List ℤ) (ts : List ℚ) :
    (plannedSlices qs ts).map SplitSlice.sequence_number
      = (List.range (qs.zip ts).length).map (fun i => i + 1) := by
  unfold plannedSlices
  rw [List.map_map]
  have h1 : (SplitSlice.sequence_number ∘ fun p : ℕ × ℤ × ℚ => SplitSlice.mk p.2.1 (p.1 + 1) p.2.2)
      = (fun i => i + 1) ∘ Prod.fst := rfl
  rw [h1, ← List.map_map, List.enum_map_fst]

lemma plannedSlices_length (qs : List ℤ) (ts : List ℚ) :
    (plannedSlices qs ts).length = min qs.length ts.length := by
  unfold plannedSlices
  simp

lemma plannedSlices_scheduled_mem (qs : List ℤ) (ts : List ℚ) :
    ∀ s ∈ plannedSlices qs ts, s.scheduled_at ∈ ts := by
  intro s hs
  unfold plannedSlices at hs
  simp only [List.mem_map] at hs
  obtain ⟨p, hp, rfl⟩ := hs
  have hzip : p.2 ∈ qs.zip ts := by
    have h2 := List.mem_map_of_mem Prod.snd hp
    rwa [List.enum_map_snd] at h2
  exact (List.of_mem_zip hzip).2

lemma plannedSlices_quantity_mem (qs : List ℤ) (ts : List ℚ) :
    ∀ s ∈ plannedSlices qs ts, s.quantity ∈ qs := by
  intro s hs
  unfold plannedSlices at hs
  simp only [List.mem_map] at hs
  obtain ⟨p, hp, rfl⟩ := hs
  have hzip : p.2 ∈ qs.zip ts := by
    have h2 := List.mem_map_of_mem Prod.snd hp
    rwa [List.enum_map_snd] at h2
  exact (List.of_mem_zip hzip).1

/-- Core specification of the planner, shared by the post-condition and
positivity theorems: under the guard conditions the function returns `.ok`
with the announced length, sum, sequence numbering and time window. -/
lemma planner_spec (t0 : ℚ) (Q N D : ℤ) (randomize : Bool) (qVar tVar : ℕ → ℚ)
    (hQ : 0 < Q) (hN : 1 ≤ N) (hD : 0 ≤ D) :
    calculate_split_schedule t0 Q N D randomize qVar tVar
      = .ok (plannedSlices (splitQuantities Q N randomize qVar)
              (splitTimes t0 N D randomize tVar)) ∧
    (plannedSlices (splitQuantities Q N randomize qVar)
        (splitTimes t0 N D randomize tVar)).length = N.toNat ∧
    ((plannedSlices (splitQuantities Q N randomize qVar)
        (splitTimes t0 N D randomize tVar)).map SplitSlice.quantity).sum = Q ∧
    (plannedSlices (splitQuantities Q N randomize qVar)
        (splitTimes t0 N D randomize tVar)).map SplitSlice.sequence_number
      = (List.range N.toNat).map (fun i => i + 1) ∧
    ∀ s ∈ plannedSlices (splitQuantities Q N randomize qVar)
        (splitTimes t0 N D randomize tVar),
      t0 ≤ s.scheduled_at ∧ s.scheduled_at ≤ t0 + (D : ℚ) := by
  have hqlen : (splitQuantities Q N randomize qVar).length = N.toNat := by
    rw [splitQuantities_length]; omega
  have htlen : (splitTimes t0 N D randomize tVar).length = N.toNat :=
    splitTimes_length t0 N D randomize tVar
  have hlen : (plannedSlices (splitQuantities Q N randomize qVar)
      (splitTimes t0 N D randomize tVar)).length = N.toNat := by
    rw [plannedSlices_length, hqlen, htlen, min_self]
  have hmapq : (plannedSlices (splitQuantities Q N randomize qVar)
      (splitTimes t0 N D randomize tVar)).map SplitSlice.quantity
        = splitQuantities Q N randomize qVar :=
    plannedSlices_map_quantity _ _ (by rw [hqlen, htlen])
  have hsum : ((plannedSlices (splitQuantities Q N randomize qVar)
      (splitTimes t0 N D randomize tVar)).map SplitSlice.quantity).sum = Q := by
    rw [hmapq, splitQuantities_sum]
  have hseq : (plannedSlices (splitQuantities Q N randomize qVar)
      (splitTimes t0 N D randomize tVar)).map SplitSlice.sequence_number
        = (List.range N.toNat).map (fun i => i + 1) := by
    rw [plannedSlices_map_seq, List.length_zip, hqlen, htlen, min_self]
  have hwin : ∀ s ∈ plannedSlices (splitQuantities Q N randomize qVar)
      (splitTimes t0 N D randomize tVar),
        t0 ≤ s.scheduled_at ∧ s.scheduled_at ≤ t0 + (D : ℚ) := by
    intro s hs
    exact splitTimes_mem_window t0 N D randomize tVar hD _
      (plannedSlices_scheduled_mem _ _ s hs)
  refine ⟨?_, hlen, hsum, hseq, hwin⟩
  unfold calculate_split_schedule
  rw [if_neg (by omega), if_neg (by omega), if_neg (by omega),
      if_neg (by rw [hqlen, htlen]; simp), if_neg (by rw [hsum]; simp),
      if_neg (by simpa using hwin)]

/-- C2: for every input with `total_quantity > 0`, `num_splits ≥ 1` and
`duration_minutes ≥ 0`, and every randomness draw, `calculate_split_schedule`
returns exactly `num_splits` slices whose quantities sum to `total_quantity`,
whose sequence numbers are `1..N` in order, and whose scheduled times all lie
in the closed window `[t0, t0 + duration_minutes]`. -/
theorem c2_planner_postconditions (t0 : ℚ) (Q N D : ℤ) (randomize : Bool)
    (qVar tVar : ℕ → ℚ) (hQ : 0 < Q) (hN : 1 ≤ N) (hD : 0 ≤ D) :
    ∃ l, calculate_split_schedule t0 Q N D randomize qVar tVar = .ok l ∧
      l.length = N.toNat ∧
      (l.map SplitSlice.quantity).sum = Q ∧
      l.map SplitSlice.sequence_number = (List.range N.toNat).map (fun i => i + 1) ∧
      ∀ s ∈ l, t0 ≤ s.scheduled_at ∧ s.scheduled_at ≤ t0 + (D : ℚ) := by
  obtain ⟨h1, h2, h3, h4, h5⟩ := planner_spec t0 Q N D randomize qVar tVar hQ hN hD
  exact ⟨_, h1, h2, h3, h4, h5⟩

/-- Witness for C2 at `t0 = 0, Q = 3, N = 2, D = 10`, no randomization. -/
theorem c2_planner_postconditions_witness :
    (0 : ℤ) < 3 ∧ (1 : ℤ) ≤ 2 ∧ (0 : ℤ) ≤ 10 ∧
    ∃ l, calculate_split_schedule 0 3 2 10 false (fun _ => 0) (fun _ => 0) = .ok l ∧
      l.length = (2 : ℤ).toNat ∧
      (l.map SplitSlice.quantity).sum = 3 ∧
      l.map SplitSlice.sequence_number = (List.range (2 : ℤ).toNat).map (fun i => i + 1) ∧
      ∀ s ∈ l, (0 : ℚ) ≤ s.scheduled_at ∧ s.scheduled_at ≤ 0 + ((10 : ℤ) : ℚ) :=
  ⟨by decide, by decide, by decide,
   c2_planner_postconditions 0 3 2 10 false (fun _ => 0) (fun _ => 0)
     (by decide) (by decide) (by decide)⟩

/-- C4 counterexample: with the ingress-guaranteed shape `Q = 2 ≥ N = 2 ≥ 1`
and the legitimate draw `u₁ = -1/10 ∈ [-0.2, 0.2]`, the randomized branch
produces a first slice of quantity `⌊1 · (1 - 1/10)⌋ = 0`, so not every slice
has positive quantity. -/
theorem c4_randomized_zero_quantity_counterexample :
    ((2 : ℤ) ≤ 2 ∧ (1 : ℤ) ≤ 2 ∧ (0 : ℤ) ≤ 1) ∧
    (-(1/5 : ℚ) ≤ -(1/10) ∧ (-(1/10) : ℚ) ≤ 1/5) ∧
    ∃ l, calculate_split_schedule 0 2 2 1 true (fun _ => -(1/10)) (fun _ => 0) = .ok l ∧
      l.map SplitSlice.quantity = [0, 2] ∧
      ∃ s ∈ l, ¬ (0 : ℤ) < s.quantity := by
  obtain ⟨h1, hlen, hsum, hseq, hwin⟩ :=
    planner_spec 0 2 2 1 true (fun _ => -(1/10)) (fun _ => 0)
      (by norm_num) (by norm_num) (by norm_num)
  have hq : splitQuantities 2 2 true (fun _ => -(1/10)) = [0, 2] := by
    unfold splitQuantities
    norm_num [List.range_succ]
  have hmapq : (plannedSlices (splitQuantities 2 2 true (fun _ => -(1/10)))
      (splitTimes 0 2 1 true (fun _ => 0))).map SplitSlice.quantity = [0, 2] := by
    rw [plannedSlices_map_quantity, hq]
    rw [splitQuantities_length, splitTimes_length]
    decide
  refine ⟨⟨by norm_num, by norm_num, by norm_num⟩, ⟨by norm_num, by norm_num⟩,
    _, h1, hmapq, ?_⟩
  have h0 : (0 : ℤ) ∈ (plannedSlices (splitQuantities 2 2 true (fun _ => -(1/10)))
      (splitTimes 0 2 1 true (fun _ => 0))).map SplitSlice.quantity := by
    rw [hmapq]; simp
  obtain ⟨s, hs, hs0⟩ := List.mem_map.mp h0
  exact ⟨s, hs, by omega⟩

lemma splitQuantities_not_randomized (Q N : ℤ) (qVar : ℕ → ℚ) :
    splitQuantities Q N false qVar
      = (List.range (N - 1).toNat).map (fun _ => ⌊(Q : ℚ) / (N : ℚ)⌋) ++
        [Q - ((N - 1).toNat : ℤ) * ⌊(Q : ℚ) / (N : ℚ)⌋] := by
  unfold splitQuantities
  simp only [Bool.false_eq_true, false_and, if_false, List.map_const', List.length_range,
    List.sum_replicate, smul_eq_mul, nsmul_eq_mul]

/-- C4 amended: when `randomize = false` (the deterministic branch) the
ingress-guaranteed shape `Q ≥ N ≥ 1` does make every slice quantity
positive, including the remainder assigned to the last slice. -/
theorem c4_positive_quantities_when_not_randomized (t0 : ℚ) (Q N D : ℤ)
    (qVar tVar : ℕ → ℚ) (hN : 1 ≤ N) (hQN : N ≤ Q) (hD : 0 ≤ D) :
    ∃ l, calculate_split_schedule t0 Q N D false qVar tVar = .ok l ∧
      ∀ s ∈ l, 0 < s.quantity := by
  have hQ : 0 < Q := by omega
  obtain ⟨h1, -, -, -, -⟩ := planner_spec t0 Q N D false qVar tVar hQ hN hD
  refine ⟨_, h1, ?_⟩
  intro s hs
  have hmem := plannedSlices_quantity_mem _ _ s hs
  rw [splitQuantities_not_randomized] at hmem
  have hNQ : (0 : ℚ) < (N : ℚ) := by exact_mod_cast (by omega : (0 : ℤ) < N)
  have hbase : (1 : ℚ) ≤ (Q : ℚ) / (N : ℚ) :=
    (one_le_div hNQ).mpr (by exact_mod_cast hQN)
  have hfloor : 1 ≤ ⌊(Q : ℚ) / (N : ℚ)⌋ := Int.le_floor.mpr (by exact_mod_cast hbase)
  rcases List.mem_append.mp hmem with hL | hR
  · obtain ⟨i, -, hiq⟩ := List.mem_map.mp hL
    omega
  · have hq : s.quantity = Q - ((N - 1).toNat : ℤ) * ⌊(Q : ℚ) / (N : ℚ)⌋ := by
      simpa using hR
    have hcast : ((N - 1).toNat : ℤ) = N - 1 := by omega
    rw [hq, hcast]
    have hfl : (⌊(Q : ℚ) / (N : ℚ)⌋ : ℚ) ≤ (Q : ℚ) / (N : ℚ) := Int.floor_le _
    have hmul : ((N : ℚ) - 1) * (⌊(Q : ℚ) / (N : ℚ)⌋ : ℚ)
        ≤ ((N : ℚ) - 1) * ((Q : ℚ) / (N : ℚ)) := by
      apply mul_le_mul_of_nonneg_left hfl
      have : (1 : ℚ) ≤ (N : ℚ) := by exact_mod_cast hN
      linarith
    have hid : (Q : ℚ) - ((N : ℚ) - 1) * ((Q : ℚ) / (N : ℚ)) = (Q : ℚ) / (N : ℚ) := by
      field_simp
      ring
    have hpos : (0 : ℚ) < (Q : ℚ) - ((N : ℚ) - 1) * (⌊(Q : ℚ) / (N : ℚ)⌋ : ℚ) := by
      linarith [hmul, hid, hbase]
    have hcq : (0 : ℚ) < ((Q - (N - 1) * ⌊(Q : ℚ) / (N : ℚ)⌋ : ℤ) : ℚ) := by
      push_cast
      linarith [hpos]
    exact_mod_cast hcq

/-- Witness for the amended C4 at `t0 = 0, Q = 5, N = 2, D = 10`. -/
theorem c4_positive_quantities_when_not_randomized_witness :
    (1 : ℤ) ≤ 2 ∧ (2 : ℤ) ≤ 5 ∧ (0 : ℤ) ≤ 10 ∧
    ∃ l, calculate_split_schedule 0 5 2 10 false (fun _ => 0) (fun _ => 0) = .ok l ∧
      ∀ s ∈ l, 0 < s.quantity :=
  ⟨by decide, by decide, by decide,
   c4_positive_quantities_when_not_randomized 0 5 2 10 (fun _ => 0) (fun _ => 0)
     (by decide) (by decide) (by decide)⟩

/-! ### Execution worker (`pulse/workers/execution_worker.py`)

The worker is modelled as a trace-producing interpreter.  Store writes and
broker wire calls are recorded as events; the outcomes of the external world
(ownership re-reads, broker placements/polls/cancels, the wall-clock check)
are supplied by oracles indexed by call counters, so every theorem quantifies
over all schedules of the environment. -/

/-- Mirror of `ZerodhaOrderResponse` fields used by the worker. -/
structure BrokerResponse where
  broker_order_id : String
  status : String
  filled_quantity : ℤ
  pending_quantity : ℤ
  average_price : Option ℚ
  message : Option String
deriving Repr, DecidableEq

/-- ASCII lowercasing of one character; agrees with Python `str.lower()` on
ASCII text (all messages the worker classifies are ASCII). -/
def lowerChar (c : Char) : Char :=
  if 65 ≤ c.toNat ∧ c.toNat ≤ 90 then Char.ofNat (c.toNat + 32) else c

/-- Python `s.lower()` restricted to ASCII. -/
def toLowerAscii (s : String) : String := ⟨s.data.map lowerChar⟩

/-- Python substring containment `pat in s`. -/
def substrOf (pat s : String) : Bool := decide (pat.data <:+: s.data)

/-- Source lines 304-305: an exception is retryable iff its message contains
one of the four network keywords (checked on the lowercased message). -/
def is_network_error (error_str : String) : Bool :=
  ["timeout", "connection", "network", "unreachable"].any
    (fun kw => substrOf kw (toLowerAscii error_str))

/-- Source lines 724-729: the generic exception handler of
`process_single_slice` classifies by message content. -/
def classify_exception_result (error_str : String) : String :=
  if substrOf "validation" (toLowerAscii error_str) ||
     substrOf "invalid" (toLowerAscii error_str)
  then "VALIDATION_FAILED" else "BROKER_REJECTED"

/-- Source lines 464 and 642: terminal broker order statuses. -/
def terminalStatuses : List String := ["COMPLETE", "CANCELLED", "REJECTED", "EXPIRED"]

/-- `execution_result` values allowed by the CHECK constraint of
`alembic/versions/1768674602_create_order_slice_executions_table.py`. -/
def allowedExecutionResults : List String :=
  ["SUCCESS", "PARTIAL_SUCCESS", "BROKER_REJECTED", "VALIDATION_FAILED", "EXECUTOR_TIMEOUT"]

/-- Names bound at module level by the imports of
`pulse/workers/execution_worker.py` (lines 12-27).  `timedelta` is absent:
line 17 imports only `datetime` and `timezone` from the `datetime` module. -/
def executionWorkerImportedNames : List String :=
  ["asyncio", "asyncpg", "secrets", "time", "uuid", "datetime", "timezone", "Optional",
   "Decimal", "OrderSliceRepository", "ExecutionRepository", "BrokerEventRepository",
   "ZerodhaClient", "ZerodhaOrderRequest", "ZerodhaOrderResponse", "RequestContext",
   "generate_trace_id", "generate_request_id", "get_logger", "get_settings", "logger"]

/-- Message of the `NameError` raised at source line 390.  Python renders it
as `name (backquote)timedelta(backquote) is not defined`; the quote characters are dropped
here, which does not affect any classification the worker performs on it. -/
def nameErrorMessage : String := "name timedelta is not defined"

/-- Payload of one `ExecutionRepository.update_execution_status` call
(`pulse/repositories/execution_repository.py`, lines 95-195); `none` models an
argument left at its `None` default, i.e. a column not written. -/
structure ExecUpdate where
  execution_status : String
  broker_order_id : Option String := none
  broker_order_status : Option String := none
  filled_quantity : Option ℤ := none
  average_price : Option ℚ := none
  execution_result : Option String := none
  error_code : Option String := none
  error_message : Option String := none
deriving Repr, DecidableEq

/-- Observable actions of one slice-processing run: store writes
(`sliceWrite`, `execInsert`, `heartbeat`, `execWrite`, `brokerEvent`), broker
wire calls (`brokerPlace`, `brokerPoll`, `brokerCancel`), ownership
verification outcomes and sleeps. -/
inductive Ev where
  | sliceWrite (status : String) (filled : Option ℤ) (avg : Option ℚ)
  | execInsert
  | heartbeat
  | execWrite (u : ExecUpdate)
  | brokerEvent (event_type : String) (is_success : Bool) (error_code : Option String)
  | brokerPlace
  | brokerPoll
  | brokerCancel
  | verifyOk
  | verifyFail
  | sleep (seconds : ℕ)
deriving Repr, DecidableEq

/-- Environment oracles: `verify k` is the outcome of the `k`-th ownership
re-read (executor_id matches and the lease is unexpired), `place`/`poll`/
`cancel k` the result of the `k`-th corresponding broker call (`Except.error`
models a raised exception carrying `str(e)`), `timeout_reached k` the `k`-th
monitoring wall-clock check. -/
structure Oracles where
  verify : ℕ → Bool
  place : ℕ → Except String BrokerResponse
  poll : ℕ → Except String BrokerResponse
  cancel : ℕ → Except String BrokerResponse
  timeout_reached : ℕ → Bool

/-- Call counters for the five oracles. -/
structure Cnt where
  v : ℕ
  p : ℕ
  q : ℕ
  c : ℕ
  t : ℕ
deriving Repr, DecidableEq

def Cnt.zero : Cnt := ⟨0, 0, 0, 0, 0⟩

/-- Outcome of `place_order_with_retry` (source lines 220-351): `lost` models
`return None` (ownership loss, or a `max_attempts ≤ 0` loop fall-through),
`placed` a returned response, `raised` a propagated exception. -/
inductive PlaceOut where
  | lost
  | placed (r : BrokerResponse)
  | raised (msg : String)
deriving Repr, DecidableEq

/-- `place_order_with_retry`, source lines 253-351.  The fuel argument is the
number of remaining loop iterations, initially `max_attempts`.  A successful
`verify_ownership` performs the heartbeat store write (source line 212)
before the broker call. -/
def place_order_with_retry (o : Oracles) : ℕ → Cnt → PlaceOut × List Ev × Cnt
  | 0, cnt => (.lost, [], cnt)
  | fuel + 1, cnt =>
    if o.verify cnt.v then
      let cnt1 : Cnt := { cnt with v := cnt.v + 1 }
      match o.place cnt1.p with
      | .ok r =>
        (.placed r,
         [.verifyOk, .heartbeat, .brokerPlace, .brokerEvent "PLACE_ORDER" true none],
         { cnt1 with p := cnt1.p + 1 })
      | .error e =>
        let code : String := if is_network_error e then "NETWORK_FAILURE" else "BROKER_REJECTED"
        let evs : List Ev :=
          [.verifyOk, .heartbeat, .brokerPlace, .brokerEvent "PLACE_ORDER" false (some code)]
        let cnt2 : Cnt := { cnt1 with p := cnt1.p + 1 }
        if is_network_error e = false then (.raised e, evs, cnt2)
        else if fuel = 0 then (.raised e, evs, cnt2)
        else
          let rest := place_order_with_retry o fuel cnt2
          (rest.1, evs ++ [.sleep 5] ++ rest.2.1, rest.2.2)
    else (.lost, [.verifyFail], { cnt with v := cnt.v + 1 })

/-- Outcome of `monitor_order_until_complete`: `lost` models every
`return None` path (ownership loss at line 421, and the line 412 `break` into
the line 513 `return None` after a failed timeout-cancel), `final` a returned
response (terminal poll at line 471 or successful timeout-cancel at line
404), `raised` a propagated exception. -/
inductive MonOut where
  | lost
  | final (r : BrokerResponse)
  | raised (msg : String)
deriving Repr, DecidableEq

/-- Body of the `while True` monitoring loop of `monitor_order_until_complete`
(source lines 392-513), as it would execute if the name `timedelta` resolved.
The loop is unbounded in the source; `fuel` bounds it for totality, and every
theorem about the worker quantifies over `fuel`. -/
def monitor_loop (o : Oracles) (ps : ℕ) : ℕ → Cnt → MonOut × List Ev × Cnt
  | 0, cnt => (.lost, [], cnt)
  | fuel + 1, cnt =>
    if o.timeout_reached cnt.t then
      let cnt1 : Cnt := { cnt with t := cnt.t + 1 }
      match o.cancel cnt1.c with
      | .ok r => (.final r, [.brokerCancel], { cnt1 with c := cnt1.c + 1 })
      | .error _ => (.lost, [.brokerCancel], { cnt1 with c := cnt1.c + 1 })
    else
      let cnt1 : Cnt := { cnt with t := cnt.t + 1 }
      if o.verify cnt1.v then
        let cnt2 : Cnt := { cnt1 with v := cnt1.v + 1 }
        match o.poll cnt2.q with
        | .ok r =>
          let evs : List Ev := [.verifyOk, .heartbeat, .brokerPoll,
            .brokerEvent "STATUS_POLL" true none,
            .execWrite { execution_status := "PLACED", broker_order_status := some r.status,
                         filled_quantity := some r.filled_quantity,
                         average_price := r.average_price }]
          let cnt3 : Cnt := { cnt2 with q := cnt2.q + 1 }
          if r.status ∈ terminalStatuses then (.final r, evs, cnt3)
          else
            let rest := monitor_loop o ps fuel cnt3
            (rest.1, evs ++ [.sleep ps] ++ rest.2.1, rest.2.2)
        | .error _ =>
          let evs : List Ev := [.verifyOk, .heartbeat, .brokerPoll,
            .brokerEvent "STATUS_POLL" false (some "POLL_FAILED")]
          let cnt3 : Cnt := { cnt2 with q := cnt2.q + 1 }
          let rest := monitor_loop o ps fuel cnt3
          (rest.1, evs ++ [.sleep ps] ++ rest.2.1, rest.2.2)
      else (.lost, [.verifyFail], { cnt1 with v := cnt1.v + 1 })

/-- `monitor_order_until_complete`, source lines 354-513.  Its first executed
statement (line 390) evaluates `timedelta(minutes=execution_timeout_minutes)`;
`timedelta` is not among the names the module binds, so the call raises
`NameError` before the loop is entered and before any event is produced. -/
def monitor_order_until_complete (o : Oracles) (ps fuel : ℕ) (cnt : Cnt) :
    MonOut × List Ev × Cnt :=
  if "timedelta" ∈ executionWorkerImportedNames then monitor_loop o ps fuel cnt
  else (.raised nameErrorMessage, [], cnt)

/-- Fields of the slice row used by `process_single_slice`. -/
structure SliceData where
  quantity : ℤ
  order_type : String
  limit_price : Option ℚ
deriving Repr, DecidableEq

/-- Python truthiness of `not slice_data.get("limit_price")`: `None` and the
number `0` are both falsy. -/
def limitPriceMissing : Option ℚ → Bool
  | none => true
  | some x => x == 0

/-- Step 6 of `process_single_slice` (source lines 670-684): map the final
broker status to an `execution_result` string. -/
def determine_execution_result (s : SliceData) (r : BrokerResponse) : String :=
  if r.status = "COMPLETE" then
    if r.filled_quantity = s.quantity then "SUCCESS" else "PARTIAL_SUCCESS"
  else if r.status = "REJECTED" then "BROKER_REJECTED"
  else if r.status = "CANCELLED" then "CANCELLED"
  else if r.status = "EXPIRED" then "TIMEOUT"
  else "PARTIAL_SUCCESS"

/-- Steps 7 and 8 of `process_single_slice` (source lines 686-705): the
terminal execution write and the slice write. -/
def finalizeEvents (s : SliceData) (r : BrokerResponse) : List Ev :=
  [.execWrite { execution_status := "COMPLETED"
                broker_order_status := some r.status
                filled_quantity := some r.filled_quantity
                average_price := r.average_price
                execution_result := some (determine_execution_result s r) },
   .sliceWrite "COMPLETED" (some r.filled_quantity) r.average_price]

/-- The execution write of the generic exception handler (source lines
731-743). -/
def exceptUpdate (e : String) : ExecUpdate :=
  { execution_status := "COMPLETED", execution_result := some (classify_exception_result e),
    error_code := some "EXECUTION_FAILED", error_message := some e }

/-- The generic exception handler of `process_single_slice` (source lines
717-751): classify the message, finalize the execution, complete the slice. -/
def exceptPath (e : String) : List Ev :=
  [.execWrite (exceptUpdate e), .sliceWrite "COMPLETED" none none]

structure RunResult where
  success : Bool
  trace : List Ev
deriving Repr, DecidableEq

/-- `process_single_slice`, source lines 516-751: claim the slice, validate,
place with retry, monitor if the placement status is non-terminal, finalize;
any raised exception lands in the generic handler. -/
def process_single_slice (o : Oracles) (maxAttempts ps fuel : ℕ) (s : SliceData) :
    RunResult :=
  let pre : List Ev := [.sliceWrite "EXECUTING" none none, .execInsert]
  if s.quantity ≤ 0 then
    ⟨false, pre ++ exceptPath "Invalid quantity"⟩
  else if s.order_type = "LIMIT" ∧ limitPriceMissing s.limit_price then
    ⟨false, pre ++ exceptPath "Limit price required for LIMIT orders"⟩
  else
    match place_order_with_retry o maxAttempts Cnt.zero with
    | (.lost, evs, _) => ⟨false, pre ++ evs⟩
    | (.raised e, evs, _) => ⟨false, pre ++ evs ++ exceptPath e⟩
    | (.placed r, evs, cnt) =>
      let placedWrite : Ev := .execWrite { execution_status := "PLACED"
                                           broker_order_id := some r.broker_order_id
                                           broker_order_status := some r.status
                                           filled_quantity := some r.filled_quantity
                                           average_price := r.average_price }
      if r.status ∈ terminalStatuses then
        ⟨true, pre ++ evs ++ [placedWrite] ++ finalizeEvents s r⟩
      else
        match monitor_order_until_complete o ps fuel cnt with
        | (.lost, mevs, _) => ⟨false, pre ++ evs ++ [placedWrite] ++ mevs⟩
        | (.raised e, mevs, _) => ⟨false, pre ++ evs ++ [placedWrite] ++ mevs ++ exceptPath e⟩
        | (.final r2, mevs, _) => ⟨true, pre ++ evs ++ [placedWrite] ++ mevs ++ finalizeEvents s r2⟩

/-- The terminal execution writes contained in a trace (the
`update_execution_status` calls with `execution_status = COMPLETED`). -/
def finalizations (tr : List Ev) : List ExecUpdate :=
  tr.filterMap (fun ev => match ev with
    | .execWrite u => if u.execution_status = "COMPLETED" then some u else none
    | _ => none)

/-! ### Helper lemmas about the worker traces -/

lemma finalizations_append (a b : List Ev) :
    finalizations (a ++ b) = finalizations a ++ finalizations b := by
  simp [finalizations]

/-- Every event of a placement trace is a verification outcome, a heartbeat,
a place wire call, a `PLACE_ORDER` broker event or the retry sleep. -/
lemma place_trace_shape (o : Oracles) : ∀ (fuel : ℕ) (cnt : Cnt),
    ∀ e ∈ (place_order_with_retry o fuel cnt).2.1,
      e = Ev.verifyOk ∨ e = Ev.heartbeat ∨ e = Ev.brokerPlace ∨ e = Ev.verifyFail ∨
      e = Ev.sleep 5 ∨ ∃ b c, e = Ev.brokerEvent "PLACE_ORDER" b c := by
  intro fuel
  induction fuel with
  | zero =>
    intro cnt e he
    simp [place_order_with_retry] at he
  | succ n ih =>
    intro cnt e he
    simp only [place_order_with_retry] at he
    by_cases hv : o.verify cnt.v
    · simp only [hv, if_true] at he
      rcases hp : o.place cnt.p with msg | r
      · simp only [hp] at he
        by_cases hn : is_network_error msg = false
        · rw [if_pos hn] at he
          simp at he
          rcases he with h | h | h | h <;> simp [h]
        · rw [if_neg hn] at he
          by_cases hz : n = 0
          · rw [if_pos hz] at he
            simp at he
            rcases he with h | h | h | h <;> simp [h]
          · rw [if_neg hz] at he
            simp at he
            rcases he with h | h | h | h | h | h
            · simp [h]
            · simp [h]
            · simp [h]
            · simp [h]
            · simp [h]
            · exact ih _ e h
      · simp only [hp] at he
        simp at he
        rcases he with h | h | h | h <;> simp [h]
    · simp only [hv, Bool.false_eq_true, if_false] at he
      simp at he
      simp [he]

lemma place_no_poll (o : Oracles) (fuel : ℕ) (cnt : Cnt) :
    Ev.brokerPoll ∉ (place_order_with_retry o fuel cnt).2.1 := by
  intro hmem
  rcases place_trace_shape o fuel cnt _ hmem with h | h | h | h | h | ⟨b, c, h⟩ <;> cases h

lemma place_finalizations (o : Oracles) (fuel : ℕ) (cnt : Cnt) :
    finalizations (place_order_with_retry o fuel cnt).2.1 = [] := by
  rw [finalizations, List.filterMap_eq_nil_iff]
  intro e he
  rcases place_trace_shape o fuel cnt _ he with h | h | h | h | h | ⟨b, c, h⟩ <;> subst h <;> rfl

lemma exceptUpdate_status (e : String) : (exceptUpdate e).execution_status = "COMPLETED" := rfl

/-- The name lookup at source line 390 fails, so the monitor raises before
producing any event. -/
lemma monitor_raises (o : Oracles) (ps fuel : ℕ) (cnt : Cnt) :
    monitor_order_until_complete o ps fuel cnt = (.raised nameErrorMessage, [], cnt) := by
  rw [monitor_order_until_complete, if_neg]
  decide

/-! ### C1 (code_bug evidence), C5, C10 -/

/-- Environment with all verifications succeeding, a fixed placement outcome
and failing poll/cancel calls. -/
def constOracle (pl : Except String BrokerResponse) : Oracles :=
  ⟨fun _ => true, fun _ => pl, fun _ => .error "poll failed",
   fun _ => .error "cancel failed", fun _ => false⟩

/-- C1: evaluation of the worker at placements that return final broker
status CANCELLED resp. EXPIRED.  The spec's normative table maps both to
execution_result PARTIAL_SUCCESS; the code records the strings CANCELLED and
TIMEOUT, neither of which is even admitted by the CHECK constraint of the
executions table. -/
theorem c1_cancelled_expired_result_mapping_bug :
    finalizations (process_single_slice
        (constOracle (.ok ⟨"B1", "CANCELLED", 0, 10, none, none⟩)) 3 5 10
        ⟨10, "MARKET", none⟩).trace
      = [{ execution_status := "COMPLETED", broker_order_status := some "CANCELLED",
           filled_quantity := some 0, average_price := none,
           execution_result := some "CANCELLED" }] ∧
    finalizations (process_single_slice
        (constOracle (.ok ⟨"B1", "EXPIRED", 0, 10, none, none⟩)) 3 5 10
        ⟨10, "MARKET", none⟩).trace
      = [{ execution_status := "COMPLETED", broker_order_status := some "EXPIRED",
           filled_quantity := some 0, average_price := none,
           execution_result := some "TIMEOUT" }] ∧
    "CANCELLED" ≠ "PARTIAL_SUCCESS" ∧ "TIMEOUT" ≠ "PARTIAL_SUCCESS" ∧
    "CANCELLED" ∉ allowedExecutionResults ∧ "TIMEOUT" ∉ allowedExecutionResults := by
  refine ⟨by decide, by decide, by decide, by decide, by decide, by decide⟩

/-- C5: the module does not bind `timedelta`, so every invocation of
`monitor_order_until_complete` raises a `NameError` before any broker poll;
consequently a slice whose placement returns a non-terminal broker status is
finalized through the generic exception path (result BROKER_REJECTED, error
code EXECUTION_FAILED) and is never polled. -/
theorem c5_monitor_name_error (o : Oracles) (maxAtt ps fuel : ℕ) (s : SliceData)
    (r : BrokerResponse) (evs : List Ev) (cnt : Cnt)
    (hq : 0 < s.quantity)
    (hval : ¬ (s.order_type = "LIMIT" ∧ limitPriceMissing s.limit_price = true))
    (hpl : place_order_with_retry o maxAtt Cnt.zero = (.placed r, evs, cnt))
    (hterm : r.status ∉ terminalStatuses) :
    "timedelta" ∉ executionWorkerImportedNames ∧
    monitor_order_until_complete o ps fuel cnt = (.raised nameErrorMessage, [], cnt) ∧
    (process_single_slice o maxAtt ps fuel s).success = false ∧
    Ev.brokerPoll ∉ (process_single_slice o maxAtt ps fuel s).trace ∧
    finalizations (process_single_slice o maxAtt ps fuel s).trace
      = [exceptUpdate nameErrorMessage] ∧
    classify_exception_result nameErrorMessage = "BROKER_REJECTED" := by
  have hrun : process_single_slice o maxAtt ps fuel s =
      ⟨false, [Ev.sliceWrite "EXECUTING" none none, Ev.execInsert] ++ evs ++
        [Ev.execWrite { execution_status := "PLACED"
                        broker_order_id := some r.broker_order_id
                        broker_order_status := some r.status
                        filled_quantity := some r.filled_quantity
                        average_price := r.average_price }] ++ [] ++
        exceptPath nameErrorMessage⟩ := by
    rw [process_single_slice, if_neg (by omega), if_neg hval, hpl]
    simp only []
    rw [if_neg hterm, monitor_raises]
  have hevs : Ev.brokerPoll ∉ evs := by
    have h := place_no_poll o maxAtt Cnt.zero
    rw [hpl] at h
    exact h
  have hfin : finalizations evs = [] := by
    have h := place_finalizations o maxAtt Cnt.zero
    rw [hpl] at h
    exact h
  refine ⟨by decide, monitor_raises o ps fuel cnt, ?_, ?_, ?_, by decide⟩
  · rw [hrun]
  · rw [hrun]
    simp [exceptPath, hevs]
  · rw [hrun]
    simp only [List.append_nil, finalizations_append, hfin]
    simp [finalizations, exceptPath, exceptUpdate_status]

/-- Witness for C5: a worker that placed successfully with broker status
OPEN (non-terminal) finalizes through the exception path. -/
theorem c5_monitor_name_error_witness :
    (0 : ℤ) < 10 ∧
    ¬ ((⟨10, "MARKET", none⟩ : SliceData).order_type = "LIMIT" ∧
        limitPriceMissing (⟨10, "MARKET", none⟩ : SliceData).limit_price = true) ∧
    place_order_with_retry (constOracle (.ok ⟨"B1", "OPEN", 0, 10, none, none⟩)) 3 Cnt.zero
      = (.placed ⟨"B1", "OPEN", 0, 10, none, none⟩,
         [Ev.verifyOk, Ev.heartbeat, Ev.brokerPlace, Ev.brokerEvent "PLACE_ORDER" true none],
         ⟨1, 1, 0, 0, 0⟩) ∧
    ("OPEN" ∉ terminalStatuses) ∧
    ("timedelta" ∉ executionWorkerImportedNames ∧
     monitor_order_until_complete (constOracle (.ok ⟨"B1", "OPEN", 0, 10, none, none⟩)) 5 10
        ⟨1, 1, 0, 0, 0⟩ = (.raised nameErrorMessage, [], ⟨1, 1, 0, 0, 0⟩) ∧
     (process_single_slice (constOracle (.ok ⟨"B1", "OPEN", 0, 10, none, none⟩)) 3 5 10
        ⟨10, "MARKET", none⟩).success = false ∧
     Ev.brokerPoll ∉ (process_single_slice (constOracle (.ok ⟨"B1", "OPEN", 0, 10, none, none⟩))
        3 5 10 ⟨10, "MARKET", none⟩).trace ∧
     finalizations (process_single_slice (constOracle (.ok ⟨"B1", "OPEN", 0, 10, none, none⟩))
        3 5 10 ⟨10, "MARKET", none⟩).trace = [exceptUpdate nameErrorMessage] ∧
     classify_exception_result nameErrorMessage = "BROKER_REJECTED") :=
  ⟨by decide, by decide, by decide, by decide,
   c5_monitor_name_error (constOracle (.ok ⟨"B1", "OPEN", 0, 10, none, none⟩)) 3 5 10
     ⟨10, "MARKET", none⟩ ⟨"B1", "OPEN", 0, 10, none, none⟩
     [Ev.verifyOk, Ev.heartbeat, Ev.brokerPlace, Ev.brokerEvent "PLACE_ORDER" true none]
     ⟨1, 1, 0, 0, 0⟩ (by decide) (by decide) (by decide) (by decide)⟩

/-- C10 counterexample: a LIMIT slice without a limit price fails
pre-placement validation, yet its recorded execution_result is
BROKER_REJECTED, not VALIDATION_FAILED — the handler classifies by message
text and the message of this validation error contains neither `validation`
nor `invalid`. -/
theorem c10_limit_validation_counterexample :
    (process_single_slice (constOracle (.error "unused")) 3 5 10 ⟨5, "LIMIT", none⟩).trace
      = [Ev.sliceWrite "EXECUTING" none none, Ev.execInsert] ++
        exceptPath "Limit price required for LIMIT orders" ∧
    finalizations (process_single_slice (constOracle (.error "unused")) 3 5 10
        ⟨5, "LIMIT", none⟩).trace
      = [exceptUpdate "Limit price required for LIMIT orders"] ∧
    (exceptUpdate "Limit price required for LIMIT orders").execution_result
      = some "BROKER_REJECTED" ∧
    some "BROKER_REJECTED" ≠ some "VALIDATION_FAILED" := by
  refine ⟨by decide, by decide, by decide, by decide⟩

/-- C10 amended: the terminal result of the error path is decided by message
content, not by error site: the result is VALIDATION_FAILED iff the raised
message contains `validation` or `invalid` (lowercased).  Hence quantity
validation maps to VALIDATION_FAILED, the LIMIT-price validation maps to
BROKER_REJECTED, and a broker placement exception is classified by the same
text rule (so a broker message containing `invalid` yields
VALIDATION_FAILED). -/
theorem c10_amended_result_classification (o : Oracles) (mA ps fuel : ℕ) (s : SliceData) :
    (s.quantity ≤ 0 →
      finalizations (process_single_slice o mA ps fuel s).trace
        = [exceptUpdate "Invalid quantity"] ∧
      (exceptUpdate "Invalid quantity").execution_result = some "VALIDATION_FAILED") ∧
    (0 < s.quantity → s.order_type = "LIMIT" → limitPriceMissing s.limit_price = true →
      finalizations (process_single_slice o mA ps fuel s).trace
        = [exceptUpdate "Limit price required for LIMIT orders"] ∧
      (exceptUpdate "Limit price required for LIMIT orders").execution_result
        = some "BROKER_REJECTED") ∧
    (∀ e evs cnt, 0 < s.quantity →
      ¬ (s.order_type = "LIMIT" ∧ limitPriceMissing s.limit_price = true) →
      place_order_with_retry o mA Cnt.zero = (.raised e, evs, cnt) →
      finalizations (process_single_slice o mA ps fuel s).trace = [exceptUpdate e]) ∧
    (∀ e, classify_exception_result e = "VALIDATION_FAILED" ↔
      (substrOf "validation" (toLowerAscii e) = true ∨
       substrOf "invalid" (toLowerAscii e) = true)) := by
  refine ⟨?_, ?_, ?_, ?_⟩
  · intro h1
    rw [process_single_slice, if_pos h1]
    refine ⟨?_, by decide⟩
    simp [finalizations, exceptPath, exceptUpdate_status]
  · intro h1 h2 h3
    rw [process_single_slice, if_neg (by omega), if_pos ⟨h2, h3⟩]
    refine ⟨?_, by decide⟩
    simp [finalizations, exceptPath, exceptUpdate_status]
  · intro e evs cnt h1 h2 hpl
    have hfin : finalizations evs = [] := by
      have h := place_finalizations o mA Cnt.zero
      rw [hpl] at h
      exact h
    rw [process_single_slice, if_neg (by omega), if_neg h2, hpl]
    simp only [finalizations_append, hfin]
    simp [finalizations, exceptPath, exceptUpdate_status]
  · intro e
    cases h1 : substrOf "validation" (toLowerAscii e) <;>
      cases h2 : substrOf "invalid" (toLowerAscii e) <;>
        simp [classify_exception_result, h1, h2]

/-- Witness for the amended C10 at the three error sites. -/
theorem c10_amended_result_classification_witness :
    ((-3 : ℤ) ≤ 0 ∧
      finalizations (process_single_slice (constOracle (.error "unused")) 3 5 10
          ⟨-3, "MARKET", none⟩).trace = [exceptUpdate "Invalid quantity"]) ∧
    ((0 : ℤ) < 5 ∧
      finalizations (process_single_slice (constOracle (.error "unused")) 3 5 10
          ⟨5, "LIMIT", none⟩).trace
        = [exceptUpdate "Limit price required for LIMIT orders"]) ∧
    ((0 : ℤ) < 7 ∧
      finalizations (process_single_slice (constOracle (.error "INSUFFICIENT_FUNDS")) 3 5 10
          ⟨7, "MARKET", none⟩).trace = [exceptUpdate "INSUFFICIENT_FUNDS"]) ∧
    (classify_exception_result "broker says order invalid" = "VALIDATION_FAILED" ↔
      (substrOf "validation" (toLowerAscii "broker says order invalid") = true ∨
       substrOf "invalid" (toLowerAscii "broker says order invalid") = true)) :=
  ⟨⟨by decide,
    ((c10_amended_result_classification (constOracle (.error "unused")) 3 5 10
        ⟨-3, "MARKET", none⟩).1 (by decide)).1⟩,
   ⟨by decide,
    ((c10_amended_result_classification (constOracle (.error "unused")) 3 5 10
        ⟨5, "LIMIT", none⟩).2.1 (by decide) (by decide) (by decide)).1⟩,
   ⟨by decide,
    (c10_amended_result_classification (constOracle (.error "INSUFFICIENT_FUNDS")) 3 5 10
        ⟨7, "MARKET", none⟩).2.2.1 "INSUFFICIENT_FUNDS"
      [Ev.verifyOk, Ev.heartbeat, Ev.brokerPlace,
       Ev.brokerEvent "PLACE_ORDER" false (some "BROKER_REJECTED")]
      ⟨1, 1, 0, 0, 0⟩ (by decide) (by decide) (by decide)⟩,
   (c10_amended_result_classification (constOracle (.error "unused")) 3 5 10
      ⟨7, "MARKET", none⟩).2.2.2 "broker says order invalid"⟩

/-! ### C6: placement retry policy -/

def isPlaceCall (e : Ev) : Bool := decide (e = Ev.brokerPlace)

lemma place_count_le (o : Oracles) : ∀ (fuel : ℕ) (cnt : Cnt),
    (place_order_with_retry o fuel cnt).2.1.countP isPlaceCall ≤ fuel := by
  intro fuel
  induction fuel with
  | zero =>
    intro cnt
    simp [place_order_with_retry]
  | succ n ih =>
    intro cnt
    simp only [place_order_with_retry]
    by_cases hv : o.verify cnt.v
    · simp only [hv, if_true]
      rcases hp : o.place cnt.p with msg | r
      · dsimp only
        by_cases hn : is_network_error msg = false
        · rw [if_pos hn]
          simp [List.countP_cons, isPlaceCall]
        · rw [if_neg hn]
          by_cases hz : n = 0
          · rw [if_pos hz]
            simp [List.countP_cons, isPlaceCall]
          · rw [if_neg hz]
            simp only [List.countP_append, List.countP_cons]
            have := ih { v := cnt.v + 1, p := cnt.p + 1, q := cnt.q, c := cnt.c, t := cnt.t }
            simp [isPlaceCall] at this ⊢
            omega
      · dsimp only
        simp [List.countP_cons, isPlaceCall]
    · simp only [hv, Bool.false_eq_true, if_false]
      simp [isPlaceCall]

/-- C6: during placement, an exception whose message contains a network
keyword is recorded as a failed PLACE_ORDER event with error code
NETWORK_FAILURE and retried after a 5-second sleep (the next attempt begins
with a fresh ownership verification, visible as the head of the recursive
call); with one attempt left it is propagated instead.  Any other exception
is recorded once with error code BROKER_REJECTED and never retried, the
exception propagating to the terminal error path.  Overall at most
`max_attempts` broker place calls are made, and each attempt is preceded by
an ownership verification. -/
theorem c6_placement_retry_policy (o : Oracles) (fuel : ℕ) (cnt : Cnt) (e : String) :
    ((place_order_with_retry o fuel cnt).2.1.countP isPlaceCall ≤ fuel) ∧
    (o.verify cnt.v = false → place_order_with_retry o (fuel + 1) cnt
      = (.lost, [Ev.verifyFail], { cnt with v := cnt.v + 1 })) ∧
    (o.verify cnt.v = true → o.place cnt.p = .error e → is_network_error e = true →
      place_order_with_retry o (fuel + 2) cnt
        = ((place_order_with_retry o (fuel + 1) { cnt with v := cnt.v + 1, p := cnt.p + 1 }).1,
           [Ev.verifyOk, Ev.heartbeat, Ev.brokerPlace,
            Ev.brokerEvent "PLACE_ORDER" false (some "NETWORK_FAILURE"), Ev.sleep 5] ++
             (place_order_with_retry o (fuel + 1)
               { cnt with v := cnt.v + 1, p := cnt.p + 1 }).2.1,
           (place_order_with_retry o (fuel + 1)
             { cnt with v := cnt.v + 1, p := cnt.p + 1 }).2.2)) ∧
    (o.verify cnt.v = true → o.place cnt.p = .error e → is_network_error e = true →
      place_order_with_retry o 1 cnt
        = (.raised e, [Ev.verifyOk, Ev.heartbeat, Ev.brokerPlace,
            Ev.brokerEvent "PLACE_ORDER" false (some "NETWORK_FAILURE")],
           { cnt with v := cnt.v + 1, p := cnt.p + 1 })) ∧
    (o.verify cnt.v = true → o.place cnt.p = .error e → is_network_error e = false →
      place_order_with_retry o (fuel + 1) cnt
        = (.raised e, [Ev.verifyOk, Ev.heartbeat, Ev.brokerPlace,
            Ev.brokerEvent "PLACE_ORDER" false (some "BROKER_REJECTED")],
           { cnt with v := cnt.v + 1, p := cnt.p + 1 })) := by
  refine ⟨place_count_le o fuel cnt, ?_, ?_, ?_, ?_⟩
  · intro hv
    simp [place_order_with_retry, hv]
  · intro hv hp hn
    simp only [place_order_with_retry, hv, if_true, hp]
    rw [if_neg (by simp [hn]), if_neg (by omega)]
    simp [hn]
  · intro hv hp hn
    simp only [place_order_with_retry, hv, if_true, hp]
    rw [if_neg (by simp [hn])]
    simp [hn]
  · intro hv hp hn
    simp only [place_order_with_retry, hv, if_true, hp]
    rw [if_pos hn]
    simp [hn]

/-- Witness for C6 with a connection failure (network-shaped) and an
INSUFFICIENT_FUNDS rejection (broker-shaped). -/
theorem c6_placement_retry_policy_witness :
    ((constOracle (.error "Connection refused")).verify 0 = true ∧
     (constOracle (.error "Connection refused")).place 0 = .error "Connection refused" ∧
     is_network_error "Connection refused" = true ∧
     place_order_with_retry (constOracle (.error "Connection refused")) 1 Cnt.zero
       = (.raised "Connection refused", [Ev.verifyOk, Ev.heartbeat, Ev.brokerPlace,
           Ev.brokerEvent "PLACE_ORDER" false (some "NETWORK_FAILURE")],
          { Cnt.zero with v := 1, p := 1 })) ∧
    ((constOracle (.error "INSUFFICIENT_FUNDS")).verify 0 = true ∧
     (constOracle (.error "INSUFFICIENT_FUNDS")).place 0 = .error "INSUFFICIENT_FUNDS" ∧
     is_network_error "INSUFFICIENT_FUNDS" = false ∧
     place_order_with_retry (constOracle (.error "INSUFFICIENT_FUNDS")) 3 Cnt.zero
       = (.raised "INSUFFICIENT_FUNDS", [Ev.verifyOk, Ev.heartbeat, Ev.brokerPlace,
           Ev.brokerEvent "PLACE_ORDER" false (some "BROKER_REJECTED")],
          { Cnt.zero with v := 1, p := 1 })) :=
  ⟨⟨by decide, by decide, by decide,
    (c6_placement_retry_policy (constOracle (.error "Connection refused")) 0 Cnt.zero
        "Connection refused").2.2.2.1 (by decide) (by decide) (by decide)⟩,
   ⟨by decide, by decide, by decide,
    (c6_placement_retry_policy (constOracle (.error "INSUFFICIENT_FUNDS")) 2 Cnt.zero
        "INSUFFICIENT_FUNDS").2.2.2.2 (by decide) (by decide) (by decide)⟩⟩

/-! ### C3: silence after ownership loss

A failed ownership verification is modelled by the `verifyFail` event;
`noFailTail tr` states that nothing follows such an event in `tr`, which
subsumes the claim that no store write and no broker call follows it. -/

def noFailTail (tr : List Ev) : Prop :=
  ∀ pre post, tr = pre ++ Ev.verifyFail :: post → post = []

lemma noFailTail_of_not_mem {tr : List Ev} (h : Ev.verifyFail ∉ tr) : noFailTail tr := by
  intro pre post heq
  exfalso
  apply h
  rw [heq]
  simp

lemma concat_fail_eq : ∀ {a pre post : List Ev}, Ev.verifyFail ∉ a →
    a ++ [Ev.verifyFail] = pre ++ Ev.verifyFail :: post → post = [] := by
  intro a
  induction a with
  | nil =>
    intro pre post _ heq
    cases pre with
    | nil => simpa using heq
    | cons x xs =>
      simp only [List.nil_append, List.cons_append, List.cons.injEq] at heq
      exact absurd heq.2.symm (by simp)
  | cons b bs ih =>
    intro pre post ha heq
    cases pre with
    | nil =>
      simp only [List.cons_append, List.nil_append, List.cons.injEq] at heq
      exact absurd heq.1 (by simp at ha; tauto)
    | cons x xs =>
      simp only [List.cons_append, List.cons.injEq] at heq
      exact ih (by simp at ha; tauto) heq.2

lemma noFailTail_concat {a : List Ev} (ha : Ev.verifyFail ∉ a) :
    noFailTail (a ++ [Ev.verifyFail]) :=
  fun _ _ heq => concat_fail_eq ha heq

lemma noFailTail_append {a b : List Ev} (ha : Ev.verifyFail ∉ a) (hb : noFailTail b) :
    noFailTail (a ++ b) := by
  intro pre post heq
  rcases List.append_eq_append_iff.mp heq with ⟨w, hw1, hw2⟩ | ⟨w, hw1, hw2⟩
  · exact hb w post hw2
  · cases w with
    | nil =>
      simp only [List.nil_append] at hw2
      exact hb [] post (by simpa using hw2.symm)
    | cons y ys =>
      simp only [List.cons_append, List.cons.injEq] at hw2
      exfalso
      apply ha
      rw [hw1, ← hw2.1]
      simp

/-- Every placement run either never fails verification, or ends in the
single `verifyFail` event and reports `lost`. -/
lemma place_fail_invariant (o : Oracles) : ∀ (fuel : ℕ) (cnt : Cnt),
    (Ev.verifyFail ∉ (place_order_with_retry o fuel cnt).2.1) ∨
    ((place_order_with_retry o fuel cnt).1 = .lost ∧
      ∃ a, (place_order_with_retry o fuel cnt).2.1 = a ++ [Ev.verifyFail] ∧
        Ev.verifyFail ∉ a) := by
  intro fuel
  induction fuel with
  | zero =>
    intro cnt
    left
    simp [place_order_with_retry]
  | succ n ih =>
    intro cnt
    simp only [place_order_with_retry]
    by_cases hv : o.verify cnt.v
    · simp only [hv, if_true]
      rcases hp : o.place cnt.p with msg | r
      · dsimp only
        by_cases hn : is_network_error msg = false
        · rw [if_pos hn]
          left
          simp
        · rw [if_neg hn]
          by_cases hz : n = 0
          · rw [if_pos hz]
            left
            simp
          · rw [if_neg hz]
            rcases ih { v := cnt.v + 1, p := cnt.p + 1, q := cnt.q, c := cnt.c, t := cnt.t }
              with hnm | ⟨hlost, a, ha1, ha2⟩
            · left
              simp only [List.mem_append]
              push_neg
              exact ⟨⟨by simp, by simp⟩, hnm⟩
            · right
              refine ⟨hlost, [Ev.verifyOk, Ev.heartbeat, Ev.brokerPlace,
                Ev.brokerEvent "PLACE_ORDER" false
                  (some (if is_network_error msg = true then "NETWORK_FAILURE"
                         else "BROKER_REJECTED")), Ev.sleep 5] ++ a, ?_, ?_⟩
              · rw [ha1]
                simp
              · simp only [List.mem_append]
                push_neg
                exact ⟨by simp, ha2⟩
      · dsimp only
        left
        simp
    · simp only [hv, Bool.false_eq_true, if_false]
      right
      exact ⟨by simp, [], by simp, by simp⟩

/-- C3: once an ownership verification fails during slice processing, the
worker performs no further action at all for that slice — the failed
verification is the last event of the run, so in particular no store write
and no broker call follows it, and no terminal write is made. -/
theorem c3_silent_abandon_after_ownership_loss (o : Oracles) (maxAtt ps fuel : ℕ)
    (s : SliceData) (pre post : List Ev)
    (h : (process_single_slice o maxAtt ps fuel s).trace = pre ++ Ev.verifyFail :: post) :
    post = [] := by
  have key : noFailTail (process_single_slice o maxAtt ps fuel s).trace := by
    rw [process_single_slice]
    by_cases h1 : s.quantity ≤ 0
    · rw [if_pos h1]
      exact noFailTail_of_not_mem (by simp [exceptPath])
    · rw [if_neg h1]
      by_cases h2 : s.order_type = "LIMIT" ∧ limitPriceMissing s.limit_price = true
      · rw [if_pos h2]
        exact noFailTail_of_not_mem (by simp [exceptPath])
      · rw [if_neg h2]
        rcases hpl : place_order_with_retry o maxAtt Cnt.zero with ⟨out, evs, cnt⟩
        have hinv := place_fail_invariant o maxAtt Cnt.zero
        rw [hpl] at hinv
        dsimp only at hinv
        cases out with
        | lost =>
          dsimp only
          rcases hinv with hnm | ⟨-, a, ha1, ha2⟩
          · exact noFailTail_of_not_mem (by simp [hnm])
          · rw [ha1, ← List.append_assoc]
            exact noFailTail_concat (by
              simp only [List.mem_append]
              push_neg
              exact ⟨by simp, ha2⟩)
        | raised e =>
          dsimp only
          rcases hinv with hnm | ⟨hlost, -⟩
          · exact noFailTail_of_not_mem (by simp [exceptPath, hnm])
          · cases hlost
        | placed r =>
          dsimp only
          rcases hinv with hnm | ⟨hlost, -⟩
          · by_cases hterm : r.status ∈ terminalStatuses
            · rw [if_pos hterm]
              exact noFailTail_of_not_mem (by simp [finalizeEvents, hnm])
            · rw [if_neg hterm, monitor_raises]
              exact noFailTail_of_not_mem (by simp [exceptPath, hnm])
          · cases hlost
  exact key pre post h

/-- Witness for C3: the first verification fails, the run ends right there. -/
theorem c3_silent_abandon_after_ownership_loss_witness :
    (process_single_slice ⟨fun _ => false, fun _ => .error "unused", fun _ => .error "unused",
        fun _ => .error "unused", fun _ => false⟩ 3 5 10 ⟨10, "MARKET", none⟩).trace
      = [Ev.sliceWrite "EXECUTING" none none, Ev.execInsert] ++ Ev.verifyFail :: [] ∧
    ([] : List Ev) = [] :=
  ⟨by decide,
   c3_silent_abandon_after_ownership_loss
     ⟨fun _ => false, fun _ => .error "unused", fun _ => .error "unused",
      fun _ => .error "unused", fun _ => false⟩ 3 5 10 ⟨10, "MARKET", none⟩
     [Ev.sliceWrite "EXECUTING" none none, Ev.execInsert] [] (by decide)⟩

/-! ### Order creation (`pulse/api/orders.py` and
`pulse/repositories/order_repository.py`)

The `orders` table is modelled as a list of rows; the UNIQUE constraint on
`order_unique_key` (declared in
`alembic/versions/1768674600_create_orders_table.py`) makes the INSERT of
`OrderRepository.create_order` raise `asyncpg.UniqueViolationError` exactly
when a row with the same key already exists. -/

structure OrderRow where
  id : String
  instrument : String
  side : String
  total_quantity : ℤ
  num_splits : ℤ
  duration_minutes : ℤ
  randomize : Bool
  order_unique_key : String
  order_queue_status : String
deriving Repr, DecidableEq

structure InternalCreateOrderRequest where
  instrument : String
  side : String
  total_quantity : ℤ
  num_splits : ℤ
  duration_minutes : ℤ
  randomize : Bool
  order_unique_key : String
deriving Repr, DecidableEq

/-- `OrderRepository.create_order` (source lines 17-87): INSERT with initial
status PENDING; a duplicate `order_unique_key` raises `UniqueViolationError`
(re-raised unchanged by the repository). -/
def create_order (store : List OrderRow) (row : OrderRow) : Except String (List OrderRow) :=
  if store.any (fun r => r.order_unique_key == row.order_unique_key)
  then .error "UniqueViolationError"
  else .ok (store ++ [row])

/-- `OrderRepository.get_order_by_unique_key` (source lines 118-151). -/
def get_order_by_unique_key (store : List OrderRow) (key : String) : Option OrderRow :=
  store.find? (fun r => r.order_unique_key == key)

/-- HTTP result of the `/internal/orders` endpoint; `existing_order_id` is
the `existing_order_id` entry of the 409 error detail when present. -/
inductive ApiResult where
  | created (status_code : ℕ) (order_id : String) (order_unique_key : String)
  | conflict (status_code : ℕ) (error_code : String) (existing_order_id : Option String)
deriving Repr, DecidableEq

/-- The `create_order` endpoint of `pulse/api/orders.py` (lines 41-149):
insert the new row; on success answer HTTP 201 with the assigned order id.
On `UniqueViolationError` the handler (lines 94-123) looks up the existing
order and raises a 409 `HTTPException` whose detail carries
`existing_order_id` — but that raise sits inside a `try` whose
`except Exception` clause catches it (`HTTPException` subclasses
`Exception`), so the handler always re-raises the fallback 409 whose detail
has no `existing_order_id` entry; the duplicate branch therefore uniformly
answers 409 DUPLICATE_ORDER_UNIQUE_KEY with `existing_order_id = none`. -/
def create_order_endpoint (store : List OrderRow) (req : InternalCreateOrderRequest)
    (order_id : String) : List OrderRow × ApiResult :=
  let row : OrderRow :=
    { id := order_id
      instrument := req.instrument
      side := req.side
      total_quantity := req.total_quantity
      num_splits := req.num_splits
      duration_minutes := req.duration_minutes
      randomize := req.randomize
      order_unique_key := req.order_unique_key
      order_queue_status := "PENDING" }
  match create_order store row with
  | .ok store2 => (store2, .created 201 order_id req.order_unique_key)
  | .error _ => (store, .conflict 409 "DUPLICATE_ORDER_UNIQUE_KEY" none)

/-- Number of order rows carrying a given `order_unique_key`. -/
def keyCount (store : List OrderRow) (key : String) : ℕ :=
  store.countP (fun r => r.order_unique_key == key)

/-- C7: a first submission of a fresh `order_unique_key` creates exactly one
row and returns HTTP 201 with the assigned order id; re-submitting the same
key fails with DUPLICATE_ORDER_UNIQUE_KEY (HTTP 409) and leaves the store
unchanged; in general no submission against a store already containing the
key ever creates a second row. -/
theorem c7_duplicate_unique_key_no_second_row (store : List OrderRow)
    (req : InternalCreateOrderRequest) (id1 id2 : String)
    (h0 : keyCount store req.order_unique_key = 0) :
    (create_order_endpoint store req id1).2 = .created 201 id1 req.order_unique_key ∧
    keyCount (create_order_endpoint store req id1).1 req.order_unique_key = 1 ∧
    (create_order_endpoint (create_order_endpoint store req id1).1 req id2).2
      = .conflict 409 "DUPLICATE_ORDER_UNIQUE_KEY" none ∧
    (create_order_endpoint (create_order_endpoint store req id1).1 req id2).1
      = (create_order_endpoint store req id1).1 ∧
    (∀ st : List OrderRow, 1 ≤ keyCount st req.order_unique_key →
      (create_order_endpoint st req id2).1 = st ∧
      keyCount (create_order_endpoint st req id2).1 req.order_unique_key
        = keyCount st req.order_unique_key) := by
  have hany : store.any (fun r => r.order_unique_key == req.order_unique_key) = false := by
    rw [List.any_eq_false]
    intro r hr
    have := List.countP_eq_zero.mp h0 r hr
    simpa using this
  have hconov : ∀ st : List OrderRow,
      1 ≤ keyCount st req.order_unique_key →
      st.any (fun r => r.order_unique_key == req.order_unique_key) = true := by
    intro st hst
    rw [List.any_eq_true]
    by_contra hno
    push_neg at hno
    have : keyCount st req.order_unique_key = 0 := by
      rw [keyCount, List.countP_eq_zero]
      intro r hr
      simpa using hno r hr
    omega
  have hstep1 : create_order_endpoint store req id1
      = (store ++ [{ id := id1
                     instrument := req.instrument
                     side := req.side
                     total_quantity := req.total_quantity
                     num_splits := req.num_splits
                     duration_minutes := req.duration_minutes
                     randomize := req.randomize
                     order_unique_key := req.order_unique_key
                     order_queue_status := "PENDING" }],
         .created 201 id1 req.order_unique_key) := by
    rw [create_order_endpoint]
    simp only [create_order, hany, Bool.false_eq_true, if_false]
  have hcount1 : keyCount (create_order_endpoint store req id1).1 req.order_unique_key = 1 := by
    rw [hstep1, keyCount, List.countP_append]
    rw [keyCount] at h0
    rw [h0]
    simp
  refine ⟨by rw [hstep1], hcount1, ?_, ?_, ?_⟩
  · rw [hstep1]
    rw [create_order_endpoint]
    have hany2 : (store ++ [({ id := id1
                               instrument := req.instrument
                               side := req.side
                               total_quantity := req.total_quantity
                               num_splits := req.num_splits
                               duration_minutes := req.duration_minutes
                               randomize := req.randomize
                               order_unique_key := req.order_unique_key
                               order_queue_status := "PENDING" } : OrderRow)]).any
        (fun r => r.order_unique_key == req.order_unique_key) = true := by
      simp
    simp only [create_order, hany2, if_true]
  · rw [hstep1]
    rw [create_order_endpoint]
    have hany2 : (store ++ [({ id := id1
                               instrument := req.instrument
                               side := req.side
                               total_quantity := req.total_quantity
                               num_splits := req.num_splits
                               duration_minutes := req.duration_minutes
                               randomize := req.randomize
                               order_unique_key := req.order_unique_key
                               order_queue_status := "PENDING" } : OrderRow)]).any
        (fun r => r.order_unique_key == req.order_unique_key) = true := by
      simp
    simp only [create_order, hany2, if_true]
  · intro st hst
    rw [create_order_endpoint]
    simp only [create_order, hconov st hst, if_true]
    exact ⟨by simp, by simp⟩

/-- Witness for C7 on the empty store. -/
theorem c7_duplicate_unique_key_no_second_row_witness :
    keyCount [] "k1" = 0 ∧
    (create_order_endpoint [] ⟨"NSE:RELIANCE", "BUY", 100, 5, 60, false, "k1"⟩ "ordA").2
      = .created 201 "ordA" "k1" ∧
    (create_order_endpoint
        (create_order_endpoint [] ⟨"NSE:RELIANCE", "BUY", 100, 5, 60, false, "k1"⟩ "ordA").1
        ⟨"NSE:RELIANCE", "BUY", 100, 5, 60, false, "k1"⟩ "ordB").2
      = .conflict 409 "DUPLICATE_ORDER_UNIQUE_KEY" none :=
  ⟨by decide,
   (c7_duplicate_unique_key_no_second_row [] ⟨"NSE:RELIANCE", "BUY", 100, 5, 60, false, "k1"⟩
      "ordA" "ordB" (by decide)).1,
   (c7_duplicate_unique_key_no_second_row [] ⟨"NSE:RELIANCE", "BUY", 100, 5, 60, false, "k1"⟩
      "ordA" "ordB" (by decide)).2.2.1⟩

/-! ### Timeout monitor (`pulse/workers/timeout_monitor.py`)

Store state for the monitor and the cancellation handler: the
`order_slice_executions` and `order_slices` tables as lists of rows. -/

structure ExecRow where
  id : String
  slice_id : String
  executor_id : String
  broker_order_id : Option String
  executor_timeout_at : ℚ
  execution_status : String
  execution_result : Option String
  filled_quantity : Option ℤ
  average_price : Option ℚ
  error_code : Option String
  error_message : Option String
deriving Repr, DecidableEq

structure SliceStoreRow where
  id : String
  order_id : String
  sequence_number : ℤ
  status : String
  filled_quantity : Option ℤ
  average_price : Option ℚ
deriving Repr, DecidableEq

structure StoreState where
  executions : List ExecRow
  slices : List SliceStoreRow
deriving Repr, DecidableEq

/-- Selection predicate of `ExecutionRepository.find_timed_out_executions`
(repository lines 267-296): status CLAIMED or PLACED and
`executor_timeout_at < now`. -/
def isTimedOut (now : ℚ) (e : ExecRow) : Bool :=
  (e.execution_status == "CLAIMED" || e.execution_status == "PLACED") &&
    decide (e.executor_timeout_at < now)

/-- The repository orders the result by `executor_timeout_at` ascending; the
processing order does not affect any per-row update, so the table order is
kept. -/
def find_timed_out_executions (now : ℚ) (st : StoreState) : List ExecRow :=
  st.executions.filter (isTimedOut now)

/-- The execution UPDATE of `recover_timed_out_executions` (monitor lines
59-67), applied to the row `r` whose id matches the fetched row `e`. -/
def timeoutFinalize (r e : ExecRow) : ExecRow :=
  { r with execution_status := "COMPLETED", execution_result := some "EXECUTOR_TIMEOUT",
           error_code := some "EXECUTOR_TIMEOUT",
           error_message := some ("Executor " ++ e.executor_id ++ " timed out") }

/-- The slice UPDATE of `recover_timed_out_executions` (monitor lines 69-88):
status COMPLETED, copying the filled quantity and average price recorded on
the fetched execution row. -/
def timeoutSliceUpdate (s : SliceStoreRow) (e : ExecRow) : SliceStoreRow :=
  { s with status := "COMPLETED", filled_quantity := e.filled_quantity,
           average_price := e.average_price }

/-- One iteration of the recovery loop (monitor lines 54-97): update the
execution row by id, update the slice row by the fetched `slice_id`. -/
def recoverOne (st : StoreState) (e : ExecRow) : StoreState :=
  { executions := st.executions.map (fun r => if r.id = e.id then timeoutFinalize r e else r),
    slices := st.slices.map (fun s => if s.id = e.slice_id then timeoutSliceUpdate s e else s) }

/-- `recover_timed_out_executions` (monitor lines 26-106): fetch the expired
executions, finalize each, return the recovered count. -/
def recover_timed_out_executions (now : ℚ) (st : StoreState) : ℕ × StoreState :=
  ((find_timed_out_executions now st).length,
   (find_timed_out_executions now st).foldl recoverOne st)

/-- In a list whose keys are pairwise distinct, `find?` by the key of a
member returns that member. -/
lemma find?_eq_some_of_nodup_key {α κ : Type} [DecidableEq κ] (key : α → κ) :
    ∀ (l : List α) (a : α), (l.map key).Nodup → a ∈ l →
      l.find? (fun x => key a == key x) = some a := by
  intro l
  induction l with
  | nil =>
    intro a _ ha
    cases ha
  | cons b bs ih =>
    intro a hnd ha
    by_cases hb : key a = key b
    · have hab : a = b := by
        rcases List.mem_cons.mp ha with h | h
        · exact h
        · exfalso
          have hmem : key a ∈ bs.map key := List.mem_map_of_mem key h
          rw [hb] at hmem
          exact (List.nodup_cons.mp hnd).1 hmem
      subst hab
      rw [List.find?_cons_of_pos]
      simp
    · rw [List.find?_cons_of_neg _ (by simp [hb])]
      apply ih
      · exact (List.nodup_cons.mp hnd).2
      · rcases List.mem_cons.mp ha with h | h
        · exact absurd (by rw [h]) hb
        · exact h

/-- Folding the per-execution recovery over a batch with pairwise-distinct
ids and slice ids acts pointwise on the store. -/
lemma recover_foldl_eq : ∀ (todo : List ExecRow) (st : StoreState),
    (todo.map ExecRow.id).Nodup → (todo.map ExecRow.slice_id).Nodup →
    todo.foldl recoverOne st =
      { executions := st.executions.map (fun r =>
          match todo.find? (fun x => r.id == x.id) with
          | some x => timeoutFinalize r x
          | none => r),
        slices := st.slices.map (fun s =>
          match todo.find? (fun x => s.id == x.slice_id) with
          | some x => timeoutSliceUpdate s x
          | none => s) } := by
  intro todo
  induction todo with
  | nil =>
    intro st _ _
    simp
  | cons e rest ih =>
    intro st hid hsid
    rw [List.map_cons, List.nodup_cons] at hid hsid
    have hid' := hid.2
    have hsid' := hsid.2
    have hideq : e.id ∉ rest.map ExecRow.id := hid.1
    have hsideq : e.slice_id ∉ rest.map ExecRow.slice_id := hsid.1
    rw [List.foldl_cons, ih (recoverOne st e) hid' hsid']
    refine congrArg₂ StoreState.mk ?_ ?_
    · show (st.executions.map (fun r => if r.id = e.id then timeoutFinalize r e else r)).map _ = _
      rw [List.map_map]
      apply List.map_congr_left
      intro r _
      by_cases hr : r.id = e.id
      · have h1 : (timeoutFinalize r e).id = r.id := rfl
        have hnone : rest.find? (fun x => (timeoutFinalize r e).id == x.id) = none := by
          rw [List.find?_eq_none]
          intro x hx hmatch
          apply hideq
          have hrx : r.id = x.id := by simpa [h1] using hmatch
          have hex : e.id = x.id := by rw [← hr]; exact hrx
          rw [hex]
          exact List.mem_map_of_mem ExecRow.id hx
        simp only [Function.comp_apply, if_pos hr, hnone]
        rw [List.find?_cons_of_pos _ (by simp [hr])]
      · have hstep : rest.find? (fun x => r.id == x.id)
            = (e :: rest).find? (fun x => r.id == x.id) := by
          rw [List.find?_cons_of_neg _ (by simp [hr])]
        simp only [Function.comp_apply, if_neg hr, ← hstep]
    · show (st.slices.map (fun s => if s.id = e.slice_id then timeoutSliceUpdate s e else s)).map _ = _
      rw [List.map_map]
      apply List.map_congr_left
      intro s _
      by_cases hs : s.id = e.slice_id
      · have h1 : (timeoutSliceUpdate s e).id = s.id := rfl
        have hnone : rest.find? (fun x => (timeoutSliceUpdate s e).id == x.slice_id) = none := by
          rw [List.find?_eq_none]
          intro x hx hmatch
          apply hsideq
          have hsx : s.id = x.slice_id := by simpa [h1] using hmatch
          have hex : e.slice_id = x.slice_id := by rw [← hs]; exact hsx
          rw [hex]
          exact List.mem_map_of_mem ExecRow.slice_id hx
        simp only [Function.comp_apply, if_pos hs, hnone]
        rw [List.find?_cons_of_pos _ (by simp [hs])]
      · have hstep : rest.find? (fun x => s.id == x.slice_id)
            = (e :: rest).find? (fun x => s.id == x.slice_id) := by
          rw [List.find?_cons_of_neg _ (by simp [hs])]
        simp only [Function.comp_apply, if_neg hs, ← hstep]

/-- C8: one monitor run finalizes every execution that is CLAIMED or PLACED
with an expired lease — execution to COMPLETED / EXECUTOR_TIMEOUT with the
per-executor error message, its slice to COMPLETED copying the partial
filled_quantity and average_price — leaves every other execution untouched,
and a second run immediately afterwards selects nothing and changes
nothing. -/
theorem c8_timeout_monitor_finalizes_exactly_once (now : ℚ) (st : StoreState)
    (hid : (st.executions.map ExecRow.id).Nodup)
    (hsid : (st.executions.map ExecRow.slice_id).Nodup) :
    (∀ e ∈ st.executions, isTimedOut now e = true →
      timeoutFinalize e e ∈ (recover_timed_out_executions now st).2.executions ∧
      ∀ s ∈ st.slices, s.id = e.slice_id →
        timeoutSliceUpdate s e ∈ (recover_timed_out_executions now st).2.slices) ∧
    (∀ e ∈ st.executions, isTimedOut now e = false →
      e ∈ (recover_timed_out_executions now st).2.executions) ∧
    recover_timed_out_executions now (recover_timed_out_executions now st).2
      = (0, (recover_timed_out_executions now st).2) := by
  have hsub1 : List.Sublist ((find_timed_out_executions now st).map ExecRow.id)
      (st.executions.map ExecRow.id) :=
    List.Sublist.map _ (List.filter_sublist _)
  have hsub2 : List.Sublist ((find_timed_out_executions now st).map ExecRow.slice_id)
      (st.executions.map ExecRow.slice_id) :=
    List.Sublist.map _ (List.filter_sublist _)
  have htid : ((find_timed_out_executions now st).map ExecRow.id).Nodup :=
    List.Nodup.sublist hsub1 hid
  have htsid : ((find_timed_out_executions now st).map ExecRow.slice_id).Nodup :=
    List.Nodup.sublist hsub2 hsid
  have hfold := recover_foldl_eq (find_timed_out_executions now st) st htid htsid
  have hst1 : (recover_timed_out_executions now st).2
      = (find_timed_out_executions now st).foldl recoverOne st := rfl
  refine ⟨?_, ?_, ?_⟩
  · intro e he ht
    have hetodo : e ∈ find_timed_out_executions now st := List.mem_filter.mpr ⟨he, ht⟩
    constructor
    · rw [hst1, hfold]
      apply List.mem_map.mpr
      refine ⟨e, he, ?_⟩
      rw [find?_eq_some_of_nodup_key ExecRow.id _ e htid hetodo]
    · intro s hs hmatch
      rw [hst1, hfold]
      apply List.mem_map.mpr
      refine ⟨s, hs, ?_⟩
      simp only [hmatch]
      rw [find?_eq_some_of_nodup_key ExecRow.slice_id _ e htsid hetodo]
  · intro e he ht
    rw [hst1, hfold]
    apply List.mem_map.mpr
    refine ⟨e, he, ?_⟩
    have hnone : (find_timed_out_executions now st).find? (fun x => e.id == x.id) = none := by
      rw [List.find?_eq_none]
      intro x hx hmatch
      have hx2 : x ∈ st.executions := List.mem_of_mem_filter hx
      have hxe : e = x :=
        List.inj_on_of_nodup_map hid he hx2 (by simpa using hmatch)
      rw [← hxe] at hx
      have := (List.mem_filter.mp hx).2
      rw [ht] at this
      cases this
    rw [hnone]
  · have hempty : find_timed_out_executions now (recover_timed_out_executions now st).2 = [] := by
      rw [find_timed_out_executions, List.filter_eq_nil_iff]
    -- every row of the recovered store fails the selection predicate
      intro a ha
      rw [hst1, hfold] at ha
      obtain ⟨r, hr, rfl⟩ := List.mem_map.mp ha
      rcases hfind : (find_timed_out_executions now st).find? (fun x => r.id == x.id)
        with - | x
      · rw [hfind]
        intro habs
        have hrtodo : r ∈ find_timed_out_executions now st :=
          List.mem_filter.mpr ⟨hr, by simpa [hfind] using habs⟩
        have := List.find?_eq_none.mp hfind r hrtodo
        simp at this
      · rw [hfind]
        simp [isTimedOut, timeoutFinalize]
    rw [recover_timed_out_executions, hempty]
    simp

/-- Witness for C8: worker W1 holds slice S1 with a lease that expired at
`t = 5 < now = 10` and a partial fill of 3 at price 100; W2 holds S2 with a
live lease. -/
theorem c8_timeout_monitor_finalizes_exactly_once_witness :
    ((⟨[⟨"E1", "S1", "W1", some "B1", 5, "PLACED", none, some 3, some 100, none, none⟩,
        ⟨"E2", "S2", "W2", none, 20, "CLAIMED", none, some 0, none, none, none⟩],
       [⟨"S1", "O1", 1, "EXECUTING", some 0, none⟩,
        ⟨"S2", "O1", 2, "EXECUTING", some 0, none⟩]⟩ : StoreState).executions.map
          ExecRow.id).Nodup ∧
    isTimedOut 10 ⟨"E1", "S1", "W1", some "B1", 5, "PLACED", none, some 3, some 100, none, none⟩
      = true ∧
    timeoutFinalize
        ⟨"E1", "S1", "W1", some "B1", 5, "PLACED", none, some 3, some 100, none, none⟩
        ⟨"E1", "S1", "W1", some "B1", 5, "PLACED", none, some 3, some 100, none, none⟩
      ∈ (recover_timed_out_executions 10
          ⟨[⟨"E1", "S1", "W1", some "B1", 5, "PLACED", none, some 3, some 100, none, none⟩,
            ⟨"E2", "S2", "W2", none, 20, "CLAIMED", none, some 0, none, none, none⟩],
           [⟨"S1", "O1", 1, "EXECUTING", some 0, none⟩,
            ⟨"S2", "O1", 2, "EXECUTING", some 0, none⟩]⟩).2.executions ∧
    recover_timed_out_executions 10
        (recover_timed_out_executions 10
          ⟨[⟨"E1", "S1", "W1", some "B1", 5, "PLACED", none, some 3, some 100, none, none⟩,
            ⟨"E2", "S2", "W2", none, 20, "CLAIMED", none, some 0, none, none, none⟩],
           [⟨"S1", "O1", 1, "EXECUTING", some 0, none⟩,
            ⟨"S2", "O1", 2, "EXECUTING", some 0, none⟩]⟩).2
      = (0, (recover_timed_out_executions 10
          ⟨[⟨"E1", "S1", "W1", some "B1", 5, "PLACED", none, some 3, some 100, none, none⟩,
            ⟨"E2", "S2", "W2", none, 20, "CLAIMED", none, some 0, none, none, none⟩],
           [⟨"S1", "O1", 1, "EXECUTING", some 0, none⟩,
            ⟨"S2", "O1", 2, "EXECUTING", some 0, none⟩]⟩).2) :=
  ⟨by decide, by decide,
   ((c8_timeout_monitor_finalizes_exactly_once 10
      ⟨[⟨"E1", "S1", "W1", some "B1", 5, "PLACED", none, some 3, some 100, none, none⟩,
        ⟨"E2", "S2", "W2", none, 20, "CLAIMED", none, some 0, none, none, none⟩],
       [⟨"S1", "O1", 1, "EXECUTING", some 0, none⟩,
        ⟨"S2", "O1", 2, "EXECUTING", some 0, none⟩]⟩ (by decide) (by decide)).1
      ⟨"E1", "S1", "W1", some "B1", 5, "PLACED", none, some 3, some 100, none, none⟩
      (by decide) (by decide)).1,
   (c8_timeout_monitor_finalizes_exactly_once 10
      ⟨[⟨"E1", "S1", "W1", some "B1", 5, "PLACED", none, some 3, some 100, none, none⟩,
        ⟨"E2", "S2", "W2", none, 20, "CLAIMED", none, some 0, none, none, none⟩],
       [⟨"S1", "O1", 1, "EXECUTING", some 0, none⟩,
        ⟨"S2", "O1", 2, "EXECUTING", some 0, none⟩]⟩ (by decide) (by decide)).2.2⟩

/-! ### Cancellation handler (`pulse/workers/cancellation_handler.py`) -/

/-- Observable actions of `handle_order_cancellation`: the broker cancel wire
call, the CANCEL_REQUEST broker-event insert (success or failure), and the
two SKIPPED updates.  Each is tagged with the slice id it concerns. -/
inductive CEv where
  | brokerCancelCall (slice_id : String) (broker_order_id : String)
  | cancelEvent (slice_id : String) (is_success : Bool)
  | execSkipped (slice_id : String)
  | sliceSkipped (slice_id : String)
deriving Repr, DecidableEq

/-- `ExecutionRepository.get_execution_by_slice_id` (repository lines
238-265). -/
def get_execution_by_slice_id (st : StoreState) (sid : String) : Option ExecRow :=
  st.executions.find? (fun e => e.slice_id == sid)

def skipSlice (st : StoreState) (sid : String) : StoreState :=
  { st with slices := st.slices.map (fun x =>
      if x.id = sid then { x with status := "SKIPPED" } else x) }

def skipExec (st : StoreState) (eid : String) : StoreState :=
  { st with executions := st.executions.map (fun r =>
      if r.id = eid then { r with execution_status := "SKIPPED" } else r) }

/-- One iteration of the slice loop of `handle_order_cancellation` (source
lines 84-249); `k boid` is the broker's answer to cancelling `boid` (`true`
success, `false` a raised exception — both record one CANCEL_REQUEST
event). -/
def cancelOne (k : String → Bool) (acc : StoreState × List CEv) (s : SliceStoreRow) :
    StoreState × List CEv :=
  if s.status = "PENDING" then
    (skipSlice acc.1 s.id, acc.2 ++ [.sliceSkipped s.id])
  else if s.status = "EXECUTING" then
    match get_execution_by_slice_id acc.1 s.id with
    | none => (skipSlice acc.1 s.id, acc.2 ++ [.sliceSkipped s.id])
    | some ex =>
      (skipSlice (skipExec acc.1 ex.id) s.id,
       acc.2 ++ (match ex.broker_order_id with
                 | some boid => [.brokerCancelCall s.id boid, .cancelEvent s.id (k boid)]
                 | none => []) ++ [.execSkipped s.id, .sliceSkipped s.id])
  else acc

/-- `handle_order_cancellation` (source lines 34-267): fetch the PENDING and
EXECUTING slices of the order once, then process each fetched record. -/
def handle_order_cancellation (k : String → Bool) (order_id : String) (st : StoreState) :
    StoreState × List CEv :=
  (st.slices.filter (fun s => s.order_id == order_id &&
      (s.status == "PENDING" || s.status == "EXECUTING"))).foldl (cancelOne k) (st, [])

/-- Events the loop emits while processing one fetched slice record against
the store state `st`. -/
def cancelSeg (k : String → Bool) (st : StoreState) (s : SliceStoreRow) : List CEv :=
  if s.status = "PENDING" then [.sliceSkipped s.id]
  else if s.status = "EXECUTING" then
    match get_execution_by_slice_id st s.id with
    | none => [.sliceSkipped s.id]
    | some ex =>
      (match ex.broker_order_id with
       | some boid => [.brokerCancelCall s.id boid, .cancelEvent s.id (k boid)]
       | none => []) ++ [.execSkipped s.id, .sliceSkipped s.id]
  else []

/-- Pointwise effect of one loop iteration on execution rows. -/
def eStep (s : SliceStoreRow) (r : ExecRow) : ExecRow :=
  if s.status == "EXECUTING" && r.slice_id == s.id
  then { r with execution_status := "SKIPPED" } else r

/-- Pointwise effect of one loop iteration on slice rows. -/
def sStep (s : SliceStoreRow) (x : SliceStoreRow) : SliceStoreRow :=
  if x.id == s.id then { x with status := "SKIPPED" } else x

lemma eStep_slice_id (s : SliceStoreRow) (r : ExecRow) : (eStep s r).slice_id = r.slice_id := by
  unfold eStep
  split <;> rfl

lemma eStep_id (s : SliceStoreRow) (r : ExecRow) : (eStep s r).id = r.id := by
  unfold eStep
  split <;> rfl

lemma eStep_broker (s : SliceStoreRow) (r : ExecRow) :
    (eStep s r).broker_order_id = r.broker_order_id := by
  unfold eStep
  split <;> rfl

lemma sStep_id (s x : SliceStoreRow) : (sStep s x).id = x.id := by
  unfold sStep
  split <;> rfl

/-- One iteration acts pointwise: on a store whose execution ids and slice
ids are unique, processing the fetched record `s` maps `eStep s` over the
executions, `sStep s` over the slices, and appends `cancelSeg k st s`. -/
lemma cancelOne_eq (k : String → Bool) (st : StoreState) (tr : List CEv) (s : SliceStoreRow)
    (hid : (st.executions.map ExecRow.id).Nodup)
    (hsid : (st.executions.map ExecRow.slice_id).Nodup)
    (hstat : s.status = "PENDING" ∨ s.status = "EXECUTING") :
    cancelOne k (st, tr) s =
      (⟨st.executions.map (eStep s), st.slices.map (sStep s)⟩, tr ++ cancelSeg k st s) := by
  obtain ⟨exs, sls⟩ := st
  have hsmap : ∀ l : List SliceStoreRow,
      l.map (fun x => if x.id = s.id then { x with status := "SKIPPED" } else x)
        = l.map (sStep s) := by
    intro l
    apply List.map_congr_left
    intro x _
    rw [sStep]
    by_cases hx : x.id = s.id
    · rw [if_pos hx, if_pos (by simp [hx])]
    · rw [if_neg hx, if_neg (by simp [hx])]
  have hemap : s.status = "PENDING" ∨ get_execution_by_slice_id ⟨exs, sls⟩ s.id = none →
      List.map (eStep s) exs = exs := by
    intro hcase
    calc List.map (eStep s) exs
        = List.map id exs := by
          apply List.map_congr_left
          intro r hr
          rcases hcase with hp | hn
          · rw [eStep, hp]
            simp
          · rw [eStep]
            have hno : ¬ (r.slice_id == s.id) = true := by
              intro habs
              exact List.find?_eq_none.mp hn r hr habs
            simp only [hno]
            simp
      _ = exs := List.map_id exs
  rcases hstat with hstat | hstat
  · simp only [cancelOne, if_pos hstat, cancelSeg, skipSlice]
    refine congrArg₂ Prod.mk (congrArg₂ StoreState.mk ?_ ?_) rfl
    · symm
      exact hemap (Or.inl hstat)
    · exact hsmap sls
  · have hne : ¬ s.status = "PENDING" := by rw [hstat]; decide
    simp only [cancelOne, if_neg hne, if_pos hstat, cancelSeg]
    rcases hfind : get_execution_by_slice_id ⟨exs, sls⟩ s.id with - | ex
    · dsimp only
      simp only [skipSlice]
      refine congrArg₂ Prod.mk (congrArg₂ StoreState.mk ?_ ?_) rfl
      · symm
        exact hemap (Or.inr hfind)
      · exact hsmap sls
    · have hexmem : ex ∈ exs := List.mem_of_find?_eq_some hfind
      have hexsid : ex.slice_id = s.id := by
        have := List.find?_some hfind
        simpa using this
      dsimp only
      simp only [skipSlice, skipExec]
      refine congrArg₂ Prod.mk (congrArg₂ StoreState.mk ?_ ?_) (by rw [List.append_assoc])
      · symm
        apply List.map_congr_left
        intro r hr
        rw [eStep, hstat]
        by_cases hr2 : r.slice_id = s.id
        · have hrex : r = ex :=
            List.inj_on_of_nodup_map hsid hr hexmem (by rw [hr2, hexsid])
          rw [if_pos (by simp [hr2]), if_pos (by rw [hrex])]
        · have hrid : ¬ r.id = ex.id := by
            intro habs
            exact hr2 (by rw [List.inj_on_of_nodup_map hid hr hexmem habs, hexsid])
          rw [if_neg (by simp [hr2]), if_neg hrid]
      · exact hsmap sls

/-- Processing one slice record does not change what the loop later reads
for another record: execution lookups commute with `eStep` because it
preserves `slice_id` and `broker_order_id`. -/
lemma cancelSeg_state_inv (k : String → Bool) (s : SliceStoreRow) (exs : List ExecRow)
    (sls sls' : List SliceStoreRow) (s' : SliceStoreRow) :
    cancelSeg k ⟨exs.map (eStep s), sls'⟩ s' = cancelSeg k ⟨exs, sls⟩ s' := by
  have hp : ((fun e : ExecRow => e.slice_id == s'.id) ∘ eStep s)
      = (fun e : ExecRow => e.slice_id == s'.id) := by
    funext r
    show ((eStep s r).slice_id == s'.id) = _
    rw [eStep_slice_id]
  have hfind : get_execution_by_slice_id ⟨exs.map (eStep s), sls'⟩ s'.id
      = (get_execution_by_slice_id ⟨exs, sls⟩ s'.id).map (eStep s) := by
    show (exs.map (eStep s)).find? (fun e => e.slice_id == s'.id) = _
    rw [List.find?_map, hp]
    rfl
  rw [cancelSeg, cancelSeg]
  by_cases h1 : s'.status = "PENDING"
  · rw [if_pos h1, if_pos h1]
  · rw [if_neg h1, if_neg h1]
    by_cases h2 : s'.status = "EXECUTING"
    · rw [if_pos h2, if_pos h2, hfind]
      rcases get_execution_by_slice_id ⟨exs, sls⟩ s'.id with - | ex
      · rfl
      · show _ ++ _ = _ ++ _
        rw [eStep_broker]
    · rw [if_neg h2, if_neg h2]

/-- The cancellation loop acts pointwise on the store and emits the
concatenation of the per-slice segments, all computed against the state at
fetch time. -/
lemma cancel_foldl_eq (k : String → Bool) : ∀ (todo : List SliceStoreRow) (st : StoreState)
    (tr : List CEv),
    (st.executions.map ExecRow.id).Nodup →
    (st.executions.map ExecRow.slice_id).Nodup →
    (∀ s ∈ todo, s.status = "PENDING" ∨ s.status = "EXECUTING") →
    todo.foldl (cancelOne k) (st, tr) =
      (⟨st.executions.map (fun r =>
          if todo.any (fun s => s.status == "EXECUTING" && r.slice_id == s.id)
          then { r with execution_status := "SKIPPED" } else r),
        st.slices.map (fun x =>
          if todo.any (fun s => x.id == s.id)
          then { x with status := "SKIPPED" } else x)⟩,
       tr ++ (todo.map (cancelSeg k st)).flatten) := by
  intro todo
  induction todo with
  | nil =>
    intro st tr _ _ _
    simp
  | cons s rest ih =>
    intro st tr hid hsid hstat
    rw [List.foldl_cons, cancelOne_eq k st tr s hid hsid (hstat s (by simp))]
    have hid' : (((st.executions.map (eStep s)).map ExecRow.id)).Nodup := by
      rw [List.map_map]
      have hcomp : (ExecRow.id ∘ eStep s) = ExecRow.id := funext (eStep_id s)
      rw [hcomp]
      exact hid
    have hsid' : (((st.executions.map (eStep s)).map ExecRow.slice_id)).Nodup := by
      rw [List.map_map]
      have hcomp : (ExecRow.slice_id ∘ eStep s) = ExecRow.slice_id :=
        funext (eStep_slice_id s)
      rw [hcomp]
      exact hsid
    rw [ih ⟨st.executions.map (eStep s), st.slices.map (sStep s)⟩
        (tr ++ cancelSeg k st s) hid' hsid' (fun s' h => hstat s' (by simp [h]))]
    refine congrArg₂ Prod.mk (congrArg₂ StoreState.mk ?_ ?_) ?_
    · rw [List.map_map]
      apply List.map_congr_left
      intro r _
      show (fun r' => if rest.any (fun s' => s'.status == "EXECUTING" && r'.slice_id == s'.id)
          then { r' with execution_status := "SKIPPED" } else r') (eStep s r) = _
      by_cases hc : (s.status == "EXECUTING" && r.slice_id == s.id) = true
      · rw [eStep, if_pos hc]
        simp only [List.any_cons, hc, Bool.true_or, if_true]
        split <;> rfl
      · rw [eStep, if_neg hc]
        have hA : (s.status == "EXECUTING" && r.slice_id == s.id) = false := by
          simpa using hc
        simp only [List.any_cons, hA, Bool.false_or]
    · rw [List.map_map]
      apply List.map_congr_left
      intro x _
      show (fun x' => if rest.any (fun s' => x'.id == s'.id)
          then { x' with status := "SKIPPED" } else x') (sStep s x) = _
      by_cases hc : (x.id == s.id) = true
      · rw [sStep, if_pos hc]
        simp only [List.any_cons, hc, Bool.true_or, if_true]
        split <;> rfl
      · rw [sStep, if_neg hc]
        have hA : (x.id == s.id) = false := by simpa using hc
        simp only [List.any_cons, hA, Bool.false_or]
    · rw [List.append_assoc]
      congr 1
      rw [List.map_cons, List.flatten_cons]
      congr 1
      apply congrArg List.flatten
      apply List.map_congr_left
      intro s' _
      exact cancelSeg_state_inv k s st.executions st.slices (st.slices.map (sStep s)) s'

/-- The slice id an event concerns. -/
def cevTag : CEv → String
  | .brokerCancelCall sid _ => sid
  | .cancelEvent sid _ => sid
  | .execSkipped sid => sid
  | .sliceSkipped sid => sid

/-- Broker interaction (wire call or CANCEL_REQUEST record) concerning a
slice. -/
def isCancelInteraction (sid : String) : CEv → Bool
  | .brokerCancelCall sid2 _ => sid2 == sid
  | .cancelEvent sid2 _ => sid2 == sid
  | _ => false

lemma cancelSeg_tags (k : String → Bool) (st : StoreState) (s' : SliceStoreRow) :
    ∀ ev ∈ cancelSeg k st s', cevTag ev = s'.id := by
  intro ev hev
  unfold cancelSeg at hev
  split at hev
  · simp at hev
    subst hev
    rfl
  · split at hev
    · split at hev
      · simp at hev
        subst hev
        rfl
      · split at hev
        · simp at hev
          rcases hev with h | h | h | h <;> (subst h; rfl)
        · simp at hev
          rcases hev with h | h <;> (subst h; rfl)
    · cases hev

lemma countP_seg_zero_of_ne (k : String → Bool) (st : StoreState) (s' : SliceStoreRow)
    (p : CEv → Bool) (sid : String) (htag : ∀ ev, p ev = true → cevTag ev = sid)
    (hne : ¬ s'.id = sid) :
    (cancelSeg k st s').countP p = 0 := by
  rw [List.countP_eq_zero]
  intro ev hev habs
  exact hne ((cancelSeg_tags k st s' ev hev ▸ htag ev habs).symm ▸ rfl)

/-- Summing a per-slice count over a batch with distinct ids when exactly the
slice `s` contributes. -/
lemma map_sum_single (g : SliceStoreRow → ℕ) (n : ℕ) :
    ∀ (todo : List SliceStoreRow) (s : SliceStoreRow),
    (todo.map SliceStoreRow.id).Nodup → s ∈ todo → g s = n →
    (∀ s' ∈ todo, ¬ s'.id = s.id → g s' = 0) →
    (todo.map g).sum = n := by
  intro todo
  induction todo with
  | nil =>
    intro s _ hs
    cases hs
  | cons t rest ih =>
    intro s hnd hs hgs hothers
    rw [List.map_cons, List.nodup_cons] at hnd
    rw [List.map_cons, List.sum_cons]
    by_cases ht : t.id = s.id
    · have hts : t = s := by
        rcases List.mem_cons.mp hs with h | h
        · exact h.symm
        · exact absurd (ht ▸ List.mem_map_of_mem SliceStoreRow.id h) hnd.1
      have hrest : (rest.map g).sum = 0 := by
        apply List.sum_eq_zero
        intro x hx
        obtain ⟨s2, hs2, rfl⟩ := List.mem_map.mp hx
        apply hothers s2 (List.mem_cons_of_mem _ hs2)
        intro habs
        apply hnd.1
        rw [ht, ← habs]
        exact List.mem_map_of_mem _ hs2
      rw [hrest, hts, hgs]
      omega
    · have hsrest : s ∈ rest := by
        rcases List.mem_cons.mp hs with h | h
        · exact absurd (by rw [h]) ht
        · exact h
      have hg0 : g t = 0 := hothers t (by simp) ht
      rw [hg0, ih s hnd.2 hsrest hgs
        (fun s2 hm hne => hothers s2 (List.mem_cons_of_mem _ hm) hne)]
      omega

lemma map_sum_all_zero (g : SliceStoreRow → ℕ) (todo : List SliceStoreRow)
    (h : ∀ s' ∈ todo, g s' = 0) : (todo.map g).sum = 0 := by
  apply List.sum_eq_zero
  intro x hx
  obtain ⟨s2, hs2, rfl⟩ := List.mem_map.mp hx
  exact h s2 hs2

/-- C9: the handler sets every PENDING slice of the order to SKIPPED with no
broker interaction; for every EXECUTING slice whose execution has a broker
order id it emits exactly one broker cancel call and exactly one
CANCEL_REQUEST event (success or failure alike) and sets the execution and
the slice to SKIPPED; and applying the handler again to the resulting store
performs no broker call and no state transition, because the
PENDING/EXECUTING filter selects nothing. -/
theorem c9_cancellation_skips_and_is_idempotent (k : String → Bool) (oid : String)
    (st : StoreState)
    (hid : (st.executions.map ExecRow.id).Nodup)
    (hsid : (st.executions.map ExecRow.slice_id).Nodup)
    (hsl : (st.slices.map SliceStoreRow.id).Nodup) :
    (∀ s ∈ st.slices, s.order_id = oid → s.status = "PENDING" →
      { s with status := "SKIPPED" } ∈ (handle_order_cancellation k oid st).1.slices ∧
      (handle_order_cancellation k oid st).2.countP (isCancelInteraction s.id) = 0) ∧
    (∀ s ∈ st.slices, s.order_id = oid → s.status = "EXECUTING" →
      ∀ ex b, get_execution_by_slice_id st s.id = some ex → ex.broker_order_id = some b →
        (handle_order_cancellation k oid st).2.countP
            (fun ev => decide (ev = CEv.brokerCancelCall s.id b)) = 1 ∧
        (handle_order_cancellation k oid st).2.countP
            (fun ev => decide (ev = CEv.cancelEvent s.id (k b))) = 1 ∧
        { ex with execution_status := "SKIPPED" }
          ∈ (handle_order_cancellation k oid st).1.executions ∧
        { s with status := "SKIPPED" } ∈ (handle_order_cancellation k oid st).1.slices) ∧
    handle_order_cancellation k oid (handle_order_cancellation k oid st).1
      = ((handle_order_cancellation k oid st).1, []) := by
  have hstat : ∀ s ∈ st.slices.filter (fun s => s.order_id == oid &&
      (s.status == "PENDING" || s.status == "EXECUTING")),
      s.status = "PENDING" ∨ s.status = "EXECUTING" := by
    intro s hs
    have := (List.mem_filter.mp hs).2
    simp at this
    rcases this.2 with h | h
    · exact Or.inl h
    · exact Or.inr h
  have hchar := cancel_foldl_eq k (st.slices.filter (fun s => s.order_id == oid &&
      (s.status == "PENDING" || s.status == "EXECUTING"))) st [] hid hsid hstat
  have hH : handle_order_cancellation k oid st =
      (⟨st.executions.map (fun r =>
          if (st.slices.filter (fun s => s.order_id == oid &&
               (s.status == "PENDING" || s.status == "EXECUTING"))).any
              (fun s => s.status == "EXECUTING" && r.slice_id == s.id)
          then { r with execution_status := "SKIPPED" } else r),
        st.slices.map (fun x =>
          if (st.slices.filter (fun s => s.order_id == oid &&
               (s.status == "PENDING" || s.status == "EXECUTING"))).any
              (fun s => x.id == s.id)
          then { x with status := "SKIPPED" } else x)⟩,
       ((st.slices.filter (fun s => s.order_id == oid &&
           (s.status == "PENDING" || s.status == "EXECUTING"))).map
         (cancelSeg k st)).flatten) := by
    rw [handle_order_cancellation, hchar]
    rw [List.nil_append]
  have htodoid : ((st.slices.filter (fun s => s.order_id == oid &&
      (s.status == "PENDING" || s.status == "EXECUTING"))).map SliceStoreRow.id).Nodup :=
    List.Nodup.sublist (List.Sublist.map _ (List.filter_sublist _)) hsl
  have hmem_todo : ∀ s ∈ st.slices, s.order_id = oid →
      (s.status = "PENDING" ∨ s.status = "EXECUTING") →
      s ∈ st.slices.filter (fun s => s.order_id == oid &&
        (s.status == "PENDING" || s.status == "EXECUTING")) := by
    intro s hs ho hp
    apply List.mem_filter.mpr
    refine ⟨hs, ?_⟩
    rcases hp with h | h <;> simp [ho, h]
  have hslice_skip : ∀ s ∈ st.slices,
      s ∈ st.slices.filter (fun s => s.order_id == oid &&
        (s.status == "PENDING" || s.status == "EXECUTING")) →
      { s with status := "SKIPPED" } ∈ (handle_order_cancellation k oid st).1.slices := by
    intro s hs hstodo
    rw [hH]
    apply List.mem_map.mpr
    refine ⟨s, hs, ?_⟩
    rw [if_pos (List.any_eq_true.mpr ⟨s, hstodo, by simp⟩)]
  refine ⟨?_, ?_, ?_⟩
  · intro s hs ho hp
    refine ⟨hslice_skip s hs (hmem_todo s hs ho (Or.inl hp)), ?_⟩
    rw [hH]
    show (((st.slices.filter _).map (cancelSeg k st)).flatten).countP _ = 0
    rw [List.countP_flatten, List.map_map]
    apply map_sum_all_zero
    intro s2 hs2
    by_cases h2 : s2.id = s.id
    · have hs2s : s2 = s :=
        List.inj_on_of_nodup_map hsl (List.mem_of_mem_filter hs2) hs h2
      subst hs2s
      show (cancelSeg k st s2).countP _ = 0
      rw [cancelSeg, if_pos hp]
      rfl
    · exact countP_seg_zero_of_ne k st s2 _ s.id
        (by
          intro ev hp2
          cases ev with
          | brokerCancelCall sid2 b2 =>
            simpa [isCancelInteraction] using hp2
          | cancelEvent sid2 x =>
            simpa [isCancelInteraction] using hp2
          | execSkipped sid2 => cases hp2
          | sliceSkipped sid2 => cases hp2) h2
  · intro s hs ho he ex b hfind hb
    have hstodo := hmem_todo s hs ho (Or.inr he)
    have hexmem : ex ∈ st.executions := List.mem_of_find?_eq_some hfind
    have hexsid : ex.slice_id = s.id := by
      have := List.find?_some hfind
      simpa using this
    have hseg : cancelSeg k st s =
        [CEv.brokerCancelCall s.id b, CEv.cancelEvent s.id (k b),
         CEv.execSkipped s.id, CEv.sliceSkipped s.id] := by
      rw [cancelSeg, if_neg (by rw [he]; decide), if_pos he, hfind]
      dsimp only
      rw [hb]
      rfl
    have hcount : ∀ p : CEv → Bool, (∀ ev, p ev = true → cevTag ev = s.id) →
        (cancelSeg k st s).countP p = 1 →
        (handle_order_cancellation k oid st).2.countP p = 1 := by
      intro p htag hone
      rw [hH]
      show (((st.slices.filter _).map (cancelSeg k st)).flatten).countP _ = 1
      rw [List.countP_flatten, List.map_map]
      apply map_sum_single _ _ _ s htodoid hstodo hone
      intro s2 hs2 hne
      exact countP_seg_zero_of_ne k st s2 p s.id htag hne
    refine ⟨?_, ?_, ?_, hslice_skip s hs hstodo⟩
    · apply hcount
      · intro ev hp2
        have : ev = CEv.brokerCancelCall s.id b := by simpa using hp2
        rw [this]
        rfl
      · rw [hseg]
        simp [List.countP_cons]
    · apply hcount
      · intro ev hp2
        have : ev = CEv.cancelEvent s.id (k b) := by simpa using hp2
        rw [this]
        rfl
      · rw [hseg]
        simp [List.countP_cons]
    · rw [hH]
      apply List.mem_map.mpr
      refine ⟨ex, hexmem, ?_⟩
      rw [if_pos (List.any_eq_true.mpr ⟨s, hstodo, by simp [he, hexsid]⟩)]
  · have hempty : (handle_order_cancellation k oid st).1.slices.filter
        (fun s => s.order_id == oid &&
          (s.status == "PENDING" || s.status == "EXECUTING")) = [] := by
      rw [List.filter_eq_nil_iff]
      intro x hx
      rw [hH] at hx
      obtain ⟨x0, hx0, rfl⟩ := List.mem_map.mp hx
      by_cases hc : (st.slices.filter (fun s => s.order_id == oid &&
          (s.status == "PENDING" || s.status == "EXECUTING"))).any
            (fun s => x0.id == s.id) = true
      · rw [if_pos hc]
        simp
      · rw [if_neg hc]
        intro habs
        apply hc
        apply List.any_eq_true.mpr
        refine ⟨x0, List.mem_filter.mpr ⟨hx0, habs⟩, by simp⟩
    rw [handle_order_cancellation, hempty]
    rfl

/-- Scenario for the C9 witness: order O1 has slice S1 COMPLETED (untouched
by cancellation), S2 EXECUTING with execution E2 placed at the broker as B2,
and S3 PENDING. -/
def c9Store : StoreState :=
  ⟨[⟨"E2", "S2", "W1", some "B2", 20, "PLACED", none, some 0, none, none, none⟩],
   [⟨"S1", "O1", 1, "COMPLETED", some 10, some 50⟩,
    ⟨"S2", "O1", 2, "EXECUTING", some 0, none⟩,
    ⟨"S3", "O1", 3, "PENDING", none, none⟩]⟩

/-- Witness for C9 on `c9Store` with a broker that cancels successfully. -/
theorem c9_cancellation_skips_and_is_idempotent_witness :
    ((c9Store.executions.map ExecRow.id).Nodup ∧
     (c9Store.slices.map SliceStoreRow.id).Nodup ∧
     (⟨"S3", "O1", 3, "PENDING", none, none⟩ : SliceStoreRow) ∈ c9Store.slices) ∧
    ({ (⟨"S3", "O1", 3, "PENDING", none, none⟩ : SliceStoreRow) with status := "SKIPPED" }
        ∈ (handle_order_cancellation (fun _ => true) "O1" c9Store).1.slices ∧
     (handle_order_cancellation (fun _ => true) "O1" c9Store).2.countP
        (isCancelInteraction "S3") = 0) ∧
    ((handle_order_cancellation (fun _ => true) "O1" c9Store).2.countP
        (fun ev => decide (ev = CEv.brokerCancelCall "S2" "B2")) = 1 ∧
     (handle_order_cancellation (fun _ => true) "O1" c9Store).2.countP
        (fun ev => decide (ev = CEv.cancelEvent "S2" true)) = 1 ∧
     { (⟨"E2", "S2", "W1", some "B2", 20, "PLACED", none, some 0, none, none, none⟩ : ExecRow)
        with execution_status := "SKIPPED" }
        ∈ (handle_order_cancellation (fun _ => true) "O1" c9Store).1.executions ∧
     { (⟨"S2", "O1", 2, "EXECUTING", some 0, none⟩ : SliceStoreRow) with status := "SKIPPED" }
        ∈ (handle_order_cancellation (fun _ => true) "O1" c9Store).1.slices) ∧
    handle_order_cancellation (fun _ => true) "O1"
        (handle_order_cancellation (fun _ => true) "O1" c9Store).1
      = ((handle_order_cancellation (fun _ => true) "O1" c9Store).1, []) :=
  ⟨⟨by decide, by decide, by decide⟩,
   (c9_cancellation_skips_and_is_idempotent (fun _ => true) "O1" c9Store
      (by decide) (by decide) (by decide)).1
     ⟨"S3", "O1", 3, "PENDING", none, none⟩ (by decide) (by decide) (by decide),
   (c9_cancellation_skips_and_is_idempotent (fun _ => true) "O1" c9Store
      (by decide) (by decide) (by decide)).2.1
     ⟨"S2", "O1", 2, "EXECUTING", some 0, none⟩ (by decide) (by decide) (by decide)
     ⟨"E2", "S2", "W1", some "B2", 20, "PLACED", none, some 0, none, none, none⟩ "B2"
     (by decide) (by decide),
   (c9_cancellation_skips_and_is_idempotent (fun _ => true) "O1" c9Store
      (by decide) (by decide) (by decide)).2.2⟩

end Pulse
